import Mathlib

/-!
Verification development for the PeerLink backend (transfer-relay engine,
session/share model, cluster election, storage abstraction).

The definitions below are a shallow embedding of the TypeScript sources:
  - `src/backend/src/socket/socket.handler.ts` (upload-init, upload-chunk,
    heartbeat, disconnect handlers),
  - `src/backend/src/repositories/storage.repository.ts` (embedded storage,
    in-memory rate limiter),
  - `src/backend/src/services/redis.service.ts` (upload-state serialization,
    Redis rate limiter),
  - `src/backend/src/services/cluster.service.ts` (leader election),
  - the share controller (`createShare` / `joinShare`).

JavaScript `Map`/`Set` objects are modelled as association lists / lists with
insert-if-absent discipline; machine numbers are `Nat` (no arithmetic in the
modelled code overflows or goes negative on the modelled paths).
-/

namespace PeerLink

/-- Association-list lookup (models `Map.get`). -/
def lookupA {κ α : Type} [DecidableEq κ] : List (κ × α) → κ → Option α
  | [], _ => none
  | (k', v) :: rest, k => if k' = k then some v else lookupA rest k

/-- Association-list update (models `Map.set`): replaces the first binding of
the key, appends when absent. -/
def setA {κ α : Type} [DecidableEq κ] : List (κ × α) → κ → α → List (κ × α)
  | [], k, v => [(k, v)]
  | (k', v') :: rest, k, v =>
    if k' = k then (k, v) :: rest else (k', v') :: setA rest k v

/-- Association-list removal (models `Map.delete`). -/
def removeA {κ α : Type} [DecidableEq κ] : List (κ × α) → κ → List (κ × α)
  | [], _ => []
  | (k', v') :: rest, k =>
    if k' = k then removeA rest k else (k', v') :: removeA rest k

/-! ## Data model (src/backend/src/types/index.ts) -/

/-- Status values of `UploadStatus` from types/index.ts. -/
inductive UploadStatus where
  | uploading
  | paused
  | completed
  | failed
  | cancelled
  deriving DecidableEq, Repr

/-- Entry of `pendingAcks: Map<number, { timestamp, retries }>`. -/
structure AckInfo where
  timestamp : Nat
  retries : Nat
  deriving DecidableEq, Repr

/-- Record `FileUpload` (aliased `UploadState` in the repository layer).
`uploadedChunks : Set<number>` is modelled as a list maintained with
insert-if-absent (so it is duplicate-free by construction); `pendingAcks` and
`chunkChecksums` are association lists. The optional TS fields `pendingAcks?`
and `chunkChecksums?` start at `[]`, which is membership-equivalent to
`undefined` followed by lazy initialization. -/
structure UploadState where
  fileId : String
  fileName : String
  fileSize : Nat
  totalChunks : Nat
  uploadedChunks : List Nat
  clientId : String
  startTime : Nat
  lastUpdate : Nat
  status : UploadStatus
  chunkChecksums : List (Nat × String)
  pendingAcks : List (Nat × AckInfo)
  lastAckTime : Option Nat
  deriving DecidableEq, Repr

/-- Record `ClientSession` from types/index.ts. -/
structure ClientSession where
  clientId : String
  socketId : String
  nodeId : Option String
  connected : Bool
  lastHeartbeat : Nat
  uploads : List String
  downloads : List String
  uploadSpeed : Nat
  downloadSpeed : Nat
  shareId : Option String
  deriving DecidableEq, Repr

/-- Status values of `ShareSessionStatus` from types/index.ts. -/
inductive ShareStatus where
  | active
  | inactive
  deriving DecidableEq, Repr

/-- Record `ShareSession` from types/index.ts. -/
structure ShareSession where
  shareId : String
  createdAt : Nat
  lastActivity : Nat
  clients : List String
  status : ShareStatus
  deriving DecidableEq, Repr

/-- The embedded (in-process) storage backend of `StorageRepository`
(`inMemoryStorage`): maps modelled as association lists. `cancelledDownloads`
maps a fileId to the set of cancelling clientIds. -/
structure Storage where
  fileUploads : List (String × UploadState)
  clientSessions : List (String × ClientSession)
  shareSessions : List (String × ShareSession)
  cancelledDownloads : List (String × List String)
  deriving DecidableEq, Repr

def Storage.getUploadState (st : Storage) (fileId : String) : Option UploadState :=
  lookupA st.fileUploads fileId

def Storage.setUploadState (st : Storage) (fileId : String) (u : UploadState) : Storage :=
  { st with fileUploads := setA st.fileUploads fileId u }

def Storage.getClientSession (st : Storage) (clientId : String) : Option ClientSession :=
  lookupA st.clientSessions clientId

def Storage.setClientSession (st : Storage) (clientId : String) (s : ClientSession) : Storage :=
  { st with clientSessions := setA st.clientSessions clientId s }

def Storage.getShareSession (st : Storage) (shareId : String) : Option ShareSession :=
  lookupA st.shareSessions shareId

def Storage.setShareSession (st : Storage) (shareId : String) (s : ShareSession) : Storage :=
  { st with shareSessions := setA st.shareSessions shareId s }

def Storage.deleteShareSession (st : Storage) (shareId : String) : Storage :=
  { st with shareSessions := removeA st.shareSessions shareId }

def Storage.addCancelledDownload (st : Storage) (fileId clientId : String) : Storage :=
  let prev := (lookupA st.cancelledDownloads fileId).getD []
  let next := if clientId ∈ prev then prev else prev ++ [clientId]
  { st with cancelledDownloads := setA st.cancelledDownloads fileId next }

def Storage.removeCancelledDownloads (st : Storage) (fileId : String) : Storage :=
  { st with cancelledDownloads := removeA st.cancelledDownloads fileId }

/-- Empty storage (fresh process, embedded backend). -/
def Storage.empty : Storage := ⟨[], [], [], []⟩

/-! ## Configuration defaults (src/backend/src/config, env vars unset) -/

def config.maxFileSize : Nat := 1073741824
def config.maxConcurrentUploads : Nat := 10
def config.maxConcurrentDownloads : Nat := 10
def config.maxConcurrentTransfers : Nat := 5
def config.rateLimitMessages : Nat := 1000
def config.rateLimitUploads : Nat := 100

/-! ## Events emitted to sockets

`socket.emit(...)` on the handling socket and
`clusterManager.routeMessageToClient(target, event, payload)` are both
modelled as appending an `Emit` to the outcome's event list (the `...To`
constructors carry the target clientId). -/

inductive Role where
  | master
  | worker
  deriving DecidableEq, Repr

inductive Emit where
  | chunkUploaded (fileId : String) (chunkIndex progress uploadedChunks totalChunks : Nat)
  | chunkReceivedTo (clientId fileId : String) (chunkIndex totalChunks : Nat)
  | chunkAcknowledgedTo (clientId fileId : String) (chunkIndex : Nat)
  | uploadComplete (fileId fileName : String) (fileSize duration : Nat)
  | uploadInitResponse (fileId : String)
  | fileTransferStartedTo (clientId fileId fileName : String) (fileSize totalChunks : Nat)
  | connectionReadyTo (clientId shareId : String) (connectedClients : Nat)
  | clientJoinedShareTo (target joiningClient shareId : String)
  | clientDisconnectedFromShareTo (target leavingClient shareId : String)
  | heartbeatAck
  | rateLimited (resetAt : Nat)
  | clusterRoleChange (nodeId : String) (role : Role)
  deriving DecidableEq, Repr

/-! ## upload-chunk handler (socket.handler.ts, lines 397-560) -/

/-- Payload of the `upload-chunk` event (the raw chunk bytes are not modelled:
with `USE_NATIVE_ADDON` unset, `config.useNativeAddon` is `false` and the
checksum branch that is the only reader of the bytes is dead). -/
structure ChunkData where
  fileId : String
  chunkIndex : Nat
  clientId : String
  deriving DecidableEq, Repr

/-- The value passed to the sender's ack `callback` (or the thrown error). -/
inductive ChunkResult where
  | notFound
  | cancelledOrPaused
  | success
  deriving DecidableEq, Repr

structure ChunkOutcome where
  storage : Storage
  filesSent : Nat
  emits : List Emit
  result : ChunkResult
  deriving DecidableEq, Repr

/-- Progress percentage `Math.round((size / totalChunks) * 100)` for nonnegative rationals:
`round(a*100/b) = ⌊(200*a + b) / (2*b)⌋`. -/
def roundedProgress (size total : Nat) : Nat := (200 * size + total) / (2 * total)

/-- The receivers the relay loop actually routes to: the other clients of the
sender's share whose `downloads` list contains the file (socket.handler.ts,
lines 460-508). -/
def relayTargets (st : Storage) (senderId fileId : String) : List String :=
  match st.getClientSession senderId with
  | none => []
  | some cs =>
    match cs.shareId with
    | none => []
    | some sid =>
      match st.getShareSession sid with
      | none => []
      | some share =>
        (share.clients.filter (· ≠ senderId)).filter (fun cid =>
          match st.getClientSession cid with
          | some os => fileId ∈ os.downloads
          | none => false)

/-- The duplicate-guarded chunk insertion (lines 423-446): a new chunkIndex is
added to `uploadedChunks` (no bounds check against `totalChunks`), `lastUpdate`
is refreshed, and a pending ack with `retries: 0` is recorded; a duplicate
leaves the record untouched. -/
def chunkInsert (upload : UploadState) (chunkIndex now : Nat) : UploadState :=
  if chunkIndex ∈ upload.uploadedChunks then upload
  else { upload with
          uploadedChunks := upload.uploadedChunks ++ [chunkIndex],
          lastUpdate := now,
          pendingAcks := setA upload.pendingAcks chunkIndex ⟨now, 0⟩ }

/-- Body of the `upload-chunk` handler once the upload record has been loaded
and the cancelled/paused rejection passed. -/
def uploadChunkGo (st : Storage) (filesSent : Nat) (d : ChunkData) (now : Nat)
    (upload : UploadState) : ChunkOutcome :=
  let upload1 := chunkInsert upload d.chunkIndex now
  let st1 :=
    if d.chunkIndex ∈ upload.uploadedChunks then st
    else st.setUploadState d.fileId upload1
  let progressEmit :=
    Emit.chunkUploaded d.fileId d.chunkIndex
      (roundedProgress upload1.uploadedChunks.length upload1.totalChunks)
      upload1.uploadedChunks.length upload1.totalChunks
  let relayEmits :=
    (relayTargets st1 d.clientId d.fileId).flatMap (fun target =>
      [Emit.chunkReceivedTo target d.fileId d.chunkIndex upload1.totalChunks,
       Emit.chunkAcknowledgedTo d.clientId d.fileId d.chunkIndex])
  if upload1.uploadedChunks.length = upload1.totalChunks ∧
      upload1.status ≠ .completed then
    let upload2 := { upload1 with status := .completed }
    let st2 := (st1.setUploadState d.fileId upload2).removeCancelledDownloads d.fileId
    ⟨st2, filesSent + 1,
      progressEmit :: relayEmits ++
        [Emit.uploadComplete d.fileId upload1.fileName upload1.fileSize
          (now - upload1.startTime)],
      .success⟩
  else
    ⟨st1, filesSent, progressEmit :: relayEmits, .success⟩

/-- The `upload-chunk` handler. Mutation of the (aliased) in-memory
`UploadState` is modelled as a write-back to storage at the point of the
mutation; as in the source, the upload record is written only when the chunk
is new and again on the completion transition. -/
def uploadChunk (st : Storage) (filesSent : Nat) (d : ChunkData) (now : Nat) :
    ChunkOutcome :=
  match st.getUploadState d.fileId with
  | none => ⟨st, filesSent, [], .notFound⟩
  | some upload =>
    if upload.status = .cancelled ∨ upload.status = .paused then
      ⟨st, filesSent, [], .cancelledOrPaused⟩
    else
      uploadChunkGo st filesSent d now upload

/-- Derived per-record effect of one `upload-chunk` on a loaded, non-rejected
upload: the chunk insertion followed by the completion transition when it
fires. Used to state invariants about `uploadChunk`. -/
def chunkStep (upload : UploadState) (chunkIndex now : Nat) : UploadState :=
  let upload1 := chunkInsert upload chunkIndex now
  if upload1.uploadedChunks.length = upload1.totalChunks ∧
      upload1.status ≠ .completed then
    { upload1 with status := .completed }
  else upload1

/-- A sequence of `upload-chunk` deliveries (event with its arrival time). -/
def runChunks : Storage → Nat → List (ChunkData × Nat) → Storage × Nat
  | st, fs, [] => (st, fs)
  | st, fs, (d, t) :: rest =>
    runChunks (uploadChunk st fs d t).storage (uploadChunk st fs d t).filesSent rest

/-- The chunk-set invariant claimed for `UploadState`: `uploadedChunks` is
duplicate-free and contained in `[0, totalChunks)`. -/
def chunkInv (u : UploadState) : Prop :=
  u.uploadedChunks.Nodup ∧ ∀ i ∈ u.uploadedChunks, i < u.totalChunks

/-- All upload records in storage satisfy the chunk-set invariant. -/
def StInv (st : Storage) : Prop :=
  ∀ f u, st.getUploadState f = some u → chunkInv u

/-! ## Rate limiting (storage.repository.ts 140-156, redis.service.ts 173-207) -/

structure RateLimitResult where
  allowed : Bool
  remaining : Nat
  resetAt : Nat
  deriving DecidableEq, Repr

/-- Function `StorageRepository.checkRateLimit` without a Redis service: the in-memory
branch ignores any history and always allows (`allowed: true`,
`remaining: maxRequests`, `resetAt: Date.now() + 60000`). -/
def checkRateLimitMemory (maxRequests now : Nat) : RateLimitResult :=
  ⟨true, maxRequests, now + 60000⟩

/-- State Redis holds for one `ratelimit:*` key: the counter value and the
absolute expiry instant (ms). -/
structure RateEntry where
  count : Nat
  expireAtMs : Nat
  deriving DecidableEq, Repr

/-- Remaining `TTL key` in seconds for a live key (Redis rounds the remaining time up). -/
def redisTtlSecs (e : RateEntry) (now : Nat) : Nat := (e.expireAtMs - now + 999) / 1000

/-- Function `RedisService.checkRateLimit` acting on the key's entry (`none` models a
missing/expired key, i.e. `GET` returning null so `currentCount = 0`). Returns
the result and the key's new state. -/
def checkRateLimitRedis (entry : Option RateEntry) (maxRequests windowSeconds now : Nat) :
    RateLimitResult × Option RateEntry :=
  let currentCount := match entry with
    | none => 0
    | some e => e.count
  if currentCount ≥ maxRequests then
    let ttl := match entry with
      | none => 0
      | some e => redisTtlSecs e now
    (⟨false, 0, now + ttl * 1000⟩, entry)
  else
    let entry' := match entry with
      | none => some ⟨1, now + windowSeconds * 1000⟩
      | some e => some { e with count := e.count + 1 }
    (⟨true, maxRequests - currentCount - 1, now + windowSeconds * 1000⟩, entry')

/-- The `heartbeat` handler on the embedded backend (socket.handler.ts,
lines 196-216): rate check, then refresh `lastHeartbeat` and ack. -/
def heartbeatEmbedded (st : Storage) (clientId : String) (now : Nat) :
    Storage × List Emit :=
  let rl := checkRateLimitMemory config.rateLimitMessages now
  if !rl.allowed then
    (st, [Emit.rateLimited rl.resetAt])
  else
    match st.getClientSession clientId with
    | some s => (st.setClientSession clientId { s with lastHeartbeat := now },
        [Emit.heartbeatAck])
    | none => (st, [])

/-! ## Redis serialization of UploadState (redis.service.ts 102-121)

`setUploadState` spreads the record and replaces `uploadedChunks` by
`Array.from(set)` and `chunkChecksums` by `Array.from(map.entries())`, then
`JSON.stringify`s. The `pendingAcks` field is left as a `Map`, and
`JSON.stringify` serializes a `Map` as `{}` — its entries are dropped.
`getUploadState` parses and rebuilds the `Set` and the checksum `Map`, and does
not touch `pendingAcks`, so the parsed value has no pending-ack entries. -/

/-- The JSON document stored under `upload:<fileId>`. -/
structure SerializedUpload where
  fileId : String
  fileName : String
  fileSize : Nat
  totalChunks : Nat
  uploadedChunks : List Nat
  clientId : String
  startTime : Nat
  lastUpdate : Nat
  status : UploadStatus
  chunkChecksums : List (Nat × String)
  lastAckTime : Option Nat
  deriving DecidableEq, Repr

/-- Serialization performed by `RedisService.setUploadState` on the record (the
`pendingAcks` map contributes no fields to the JSON: `JSON.stringify(new
Map(...)) = "{}"`). -/
def redisSerializeUpload (u : UploadState) : SerializedUpload :=
  ⟨u.fileId, u.fileName, u.fileSize, u.totalChunks, u.uploadedChunks,
   u.clientId, u.startTime, u.lastUpdate, u.status, u.chunkChecksums,
   u.lastAckTime⟩

/-- Parse performed by `RedisService.getUploadState`: rebuilds `uploadedChunks` and
`chunkChecksums`; `pendingAcks` comes back as the parsed `{}` — no entries. -/
def redisDeserializeUpload (s : SerializedUpload) : UploadState :=
  ⟨s.fileId, s.fileName, s.fileSize, s.totalChunks, s.uploadedChunks,
   s.clientId, s.startTime, s.lastUpdate, s.status, s.chunkChecksums,
   [], s.lastAckTime⟩

def redisRoundTrip (u : UploadState) : UploadState :=
  redisDeserializeUpload (redisSerializeUpload u)

/-! ## upload-init handler (socket.handler.ts, lines 218-395) -/

structure InitData where
  clientId : String
  fileName : String
  fileSize : Nat
  totalChunks : Nat
  deriving DecidableEq, Repr

inductive InitError where
  | rateLimitedErr
  | tooManyUploads
  | tooManyTransfers
  | fileTooLarge
  | allReceiversBusy
  deriving DecidableEq, Repr

inductive InitResult where
  | ok (fileId : String)
  | error (e : InitError)
  deriving DecidableEq, Repr

structure InitOutcome where
  storage : Storage
  emits : List Emit
  result : InitResult
  deriving DecidableEq, Repr

/-- Number of `status === "uploading"` uploads owned by `cid` over a snapshot
of all upload states. -/
def countUploading (uploads : List (String × UploadState)) (cid : String) : Nat :=
  (uploads.filter (fun p => p.2.clientId = cid && p.2.status == .uploading)).length

/-- The receiver-admission loop of `upload-init` (lines 326-357): for each
other client of the share, skip when its session is missing, when its
`downloads` list is at `maxConcurrentDownloads`, or when downloads plus its
own uploading count reaches `maxConcurrentTransfers`; otherwise push the new
`fileId` onto its `downloads` and record it as accepted. `uploads0` is the
`allUploads` snapshot used for the receiver's upload count. -/
def initLoop (uploads0 : List (String × UploadState)) (fileId : String) :
    Storage → List String → Storage × List String
  | st, [] => (st, [])
  | st, c :: rest =>
    match st.getClientSession c with
    | none => initLoop uploads0 fileId st rest
    | some os =>
      if os.downloads.length ≥ config.maxConcurrentDownloads then
        initLoop uploads0 fileId st rest
      else if os.downloads.length + countUploading uploads0 c ≥
          config.maxConcurrentTransfers then
        initLoop uploads0 fileId st rest
      else
        let os' := { os with downloads := os.downloads ++ [fileId] }
        let res := initLoop uploads0 fileId (st.setClientSession c os') rest
        (res.1, c :: res.2)

/-- A potential receiver the admission loop skips: missing session, `downloads`
at the concurrent-download cap, or `downloads` plus its own uploading count at
the concurrent-transfer cap (the skip conditions of `initLoop`). -/
def receiverIneligible (uploads0 : List (String × UploadState)) (st : Storage)
    (c : String) : Bool :=
  match st.getClientSession c with
  | none => true
  | some os =>
    decide (os.downloads.length ≥ config.maxConcurrentDownloads) ||
    decide (os.downloads.length + countUploading uploads0 c ≥
      config.maxConcurrentTransfers)

/-- The fresh `UploadState` written by `upload-init` (lines 272-284). -/
def initialUpload (fileId : String) (d : InitData) (now : Nat) : UploadState :=
  ⟨fileId, d.fileName, d.fileSize, d.totalChunks, [], d.clientId, now, now,
   .uploading, [], [], none⟩

/-- The `upload-init` handler on the embedded backend. `fileId` stands for the
generated `file-<time>-<rand>` identifier. The `UploadState` is written
*before* the receiver-admission loop; the "All receivers are busy" failure is
thrown after it, with no rollback of that write. -/
def uploadInit (st : Storage) (d : InitData) (fileId : String) (now : Nat) :
    InitOutcome :=
  let rl := checkRateLimitMemory config.rateLimitUploads now
  if !rl.allowed then
    ⟨st, [Emit.rateLimited rl.resetAt], .error .rateLimitedErr⟩
  else
    let activeUploads := countUploading st.fileUploads d.clientId
    if activeUploads ≥ config.maxConcurrentUploads then
      ⟨st, [], .error .tooManyUploads⟩
    else
      let senderActiveDownloads :=
        match st.getClientSession d.clientId with
        | some s => s.downloads.length
        | none => 0
      if activeUploads + senderActiveDownloads ≥ config.maxConcurrentTransfers then
        ⟨st, [], .error .tooManyTransfers⟩
      else if d.fileSize > config.maxFileSize then
        ⟨st, [], .error .fileTooLarge⟩
      else
        let upload := initialUpload fileId d now
        let st1 := st.setUploadState fileId upload
        match st1.getClientSession d.clientId with
        | none =>
          ⟨st1, [Emit.uploadInitResponse fileId], .ok fileId⟩
        | some cs =>
          match cs.shareId with
          | none =>
            ⟨st1, [Emit.uploadInitResponse fileId], .ok fileId⟩
          | some sid =>
            match st1.getShareSession sid with
            | none =>
              ⟨st1, [Emit.uploadInitResponse fileId], .ok fileId⟩
            | some share =>
              let others := share.clients.filter (· ≠ d.clientId)
              let loopRes := initLoop st1.fileUploads fileId st1 others
              let st2 := loopRes.1
              let accepted := loopRes.2
              if share.clients.length > 1 ∧ accepted = [] then
                ⟨st2, [], .error .allReceiversBusy⟩
              else
                ⟨st2,
                 Emit.uploadInitResponse fileId ::
                   accepted.map (fun r =>
                     Emit.fileTransferStartedTo r fileId d.fileName d.fileSize
                       d.totalChunks),
                 .ok fileId⟩

/-! ## Share controller (createShare / joinShare) and error taxonomy -/

/-- The `ErrorCode` values reachable from the share controller
(error.utils.ts). -/
inductive ErrCode where
  | NOT_FOUND
  | BAD_REQUEST
  | CONFLICT
  | SHARE_SESSION_FULL
  deriving DecidableEq, Repr

/-- An `AppErrorClass` as thrown by `ErrorFactory` (code + HTTP status). -/
structure AppError where
  code : ErrCode
  statusCode : Nat
  deriving DecidableEq, Repr

def ErrorFactory.notFound : AppError := ⟨.NOT_FOUND, 404⟩
def ErrorFactory.badRequest : AppError := ⟨.BAD_REQUEST, 400⟩
def ErrorFactory.conflict : AppError := ⟨.CONFLICT, 409⟩
def ErrorFactory.shareSessionFull : AppError := ⟨.SHARE_SESSION_FULL, 409⟩

inductive ShareOpResult where
  | ok (shareId : String) (connectedClients : Nat)
  | error (e : AppError)
  deriving DecidableEq, Repr

structure ShareOutcome where
  storage : Storage
  emits : List Emit
  result : ShareOpResult
  deriving DecidableEq, Repr

/-- Point a client's session at a share (the `clientSession.shareId = shareId`
update both controller endpoints perform when the client has a session). -/
def assignClientShare (st : Storage) (clientId shareId : String) : Storage :=
  match st.getClientSession clientId with
  | some cs => st.setClientSession clientId { cs with shareId := some shareId }
  | none => st

/-- Endpoint `ShareController.createShare`. `genId` stands for the generated
`share-<unix-ms>-<rand>` identifier used when no custom id is supplied (only
a custom id is checked against an existing share). -/
def createShare (st : Storage) (clientId : String) (customShareId : Option String)
    (genId : String) (now : Nat) : ShareOutcome :=
  let checked : Except AppError String :=
    match customShareId with
    | some s =>
      match st.getShareSession s with
      | some _ => .error ErrorFactory.conflict
      | none => .ok s
    | none => .ok genId
  match checked with
  | .error e => ⟨st, [], .error e⟩
  | .ok shareId =>
    let shareSession : ShareSession := ⟨shareId, now, now, [clientId], .active⟩
    let st1 := st.setShareSession shareId shareSession
    let st2 := assignClientShare st1 clientId shareId
    let emits := shareSession.clients.map (fun cid =>
      Emit.connectionReadyTo cid shareId shareSession.clients.length)
    ⟨st2, emits, .ok shareId shareSession.clients.length⟩

/-- Endpoint `ShareController.joinShare` (src/unnamed/part_014, lines 70-139): reject
missing (404), inactive (400), or full — `clients.length >= 2` —
(409 `SHARE_SESSION_FULL`); otherwise append the client, refresh
`lastActivity`, point the client's session at the share, and notify every
participant. -/
def joinShare (st : Storage) (shareId clientId : String) (now : Nat) :
    ShareOutcome :=
  match st.getShareSession shareId with
  | none => ⟨st, [], .error ErrorFactory.notFound⟩
  | some shareSession =>
    if shareSession.status = .inactive then
      ⟨st, [], .error ErrorFactory.badRequest⟩
    else if shareSession.clients.length ≥ 2 then
      ⟨st, [], .error ErrorFactory.shareSessionFull⟩
    else
      let share' := { shareSession with
                      clients := shareSession.clients ++ [clientId],
                      lastActivity := now }
      let st1 := st.setShareSession shareId share'
      let st2 := assignClientShare st1 clientId shareId
      let emits := share'.clients.flatMap (fun cid =>
        [Emit.connectionReadyTo cid shareId share'.clients.length,
         Emit.clientJoinedShareTo cid clientId shareId])
      ⟨st2, emits, .ok shareId share'.clients.length⟩

/-- Each clientId appears in the `clients` list of at most one share. -/
def SharesDisjoint (st : Storage) : Prop :=
  ∀ s1 s2 sh1 sh2, s1 ≠ s2 → st.getShareSession s1 = some sh1 →
    st.getShareSession s2 = some sh2 → ∀ c, c ∈ sh1.clients → c ∉ sh2.clients

/-- A client listed in no share's `clients` list. -/
def ClientFreeOfShares (st : Storage) (c : String) : Prop :=
  ∀ s sh, st.getShareSession s = some sh → c ∉ sh.clients

/-! ## disconnect handler (socket.handler.ts, lines 690-760) -/

/-- First client session bound to the socket, in map insertion order. -/
def findBySocket : List (String × ClientSession) → String → Option (String × ClientSession)
  | [], _ => none
  | (cid, s) :: rest, sockId =>
    if s.socketId = sockId then some (cid, s) else findBySocket rest sockId

/-- The `disconnect` handler's share bookkeeping: the disconnecting client is
removed from its share (the share is deleted when it empties), the other
participants are notified, and the session is marked disconnected. -/
def handleDisconnect (st : Storage) (socketId : String) : Storage × List Emit :=
  match findBySocket st.clientSessions socketId with
  | none => (st, [])
  | some (clientId, session) =>
    let shareStep : Storage × List Emit :=
      match session.shareId with
      | none => (st, [])
      | some sid =>
        match st.getShareSession sid with
        | none => (st, [])
        | some share =>
          let otherClients := share.clients.filter (· ≠ clientId)
          let emits := otherClients.map (fun cid =>
            Emit.clientDisconnectedFromShareTo cid clientId sid)
          let remaining := share.clients.filter (· ≠ clientId)
          if remaining.length = 0 then
            (st.deleteShareSession sid, emits)
          else
            (st.setShareSession sid { share with clients := remaining }, emits)
    let st2 := shareStep.1.setClientSession clientId { session with connected := false }
    (st2, shareStep.2)

/-! ## Leader election (cluster.service.ts, `startElection`, lines 95-148)

The shared store key `cluster:master` is modelled as `lockHolder`; the
atomicity assumption of `SET NX EX` is reflected by `electionStep` being one
transition of the system. TTL expiry of the key is a separate `expireLock`
transition, so a sequence of `electionStep`s without `expireLock` is one lock
epoch. -/

structure ClusterState where
  lockHolder : Option String
  /-- Each node's local `isMaster` flag, keyed by nodeId. -/
  nodes : List (String × Bool)
  deriving DecidableEq, Repr

/-- One run of `tryBecomeMaster` on node `n`: `SET cluster:master n NX EX 15`;
on success become master (role-change event when the flag flips); on failure
read the key — if it is self, refresh the TTL and ensure the flag; otherwise
drop to worker, emitting a role change if the flag was set. -/
def electionStep (cs : ClusterState) (n : String) : ClusterState × List Emit :=
  match lookupA cs.nodes n with
  | none => (cs, [])
  | some isM =>
    match cs.lockHolder with
    | none =>
      (⟨some n, setA cs.nodes n true⟩,
       if isM then [] else [Emit.clusterRoleChange n .master])
    | some holder =>
      if holder = n then
        (⟨cs.lockHolder, setA cs.nodes n true⟩,
         if isM then [] else [Emit.clusterRoleChange n .master])
      else
        if isM then
          (⟨cs.lockHolder, setA cs.nodes n false⟩,
           [Emit.clusterRoleChange n .worker])
        else (cs, [])

/-- TTL expiry of `cluster:master`. -/
def expireLock (cs : ClusterState) : ClusterState := ⟨none, cs.nodes⟩

/-- A sequence of election steps (one lock epoch: no expiry in between). -/
def runElection : ClusterState → List String → ClusterState
  | cs, [] => cs
  | cs, n :: rest => runElection (electionStep cs n).1 rest

/-- At most one node holds `isMaster = true`, and only the lock holder. -/
def MasterInv (cs : ClusterState) : Prop :=
  ∀ m, lookupA cs.nodes m = some true → cs.lockHolder = some m

/-! ## Concrete fixtures used by the counterexamples and witnesses -/

/-- A client session with the fields the modelled handlers read. -/
def mkSession (cid sock : String) (share : Option String)
    (downloads : List String) : ClientSession :=
  ⟨cid, sock, none, true, 0, [], downloads, 0, 0, share⟩

def mkShare (sid : String) (clients : List String) : ShareSession :=
  ⟨sid, 0, 0, clients, .active⟩

def mkUpload (fid : String) (total : Nat) (chunks : List Nat) (cl : String)
    (status : UploadStatus) : UploadState :=
  ⟨fid, "x", 48, total, chunks, cl, 0, 0, status, [], [], none⟩

/-- Sender A and receiver B share session S; B is downloading file f. -/
def stPair (u : UploadState) : Storage :=
  ⟨[("f", u)],
   [("A", mkSession "A" "sA" (some "S") []),
    ("B", mkSession "B" "sB" (some "S") ["f"])],
   [("S", mkShare "S" ["A", "B"])],
   []⟩





def stBusy : Storage :=
  ⟨[],
   [("A", mkSession "A" "sA" (some "S") []),
    ("B", mkSession "B" "sB" (some "S") ["d1", "d2", "d3", "d4", "d5"])],
   [("S", mkShare "S" ["A", "B"])],
   []⟩





/-! ## Association-list lemmas -/

theorem lookupA_setA_self {κ α : Type} [DecidableEq κ]
    (l : List (κ × α)) (k : κ) (v : α) : lookupA (setA l k v) k = some v := by
  induction l with
  | nil => simp [setA, lookupA]
  | cons p rest ih =>
    obtain ⟨k', v'⟩ := p
    by_cases h : k' = k
    · simp [setA, lookupA, h]
    · simp [setA, lookupA, h, ih]

theorem lookupA_setA_ne {κ α : Type} [DecidableEq κ]
    (l : List (κ × α)) (k k' : κ) (v : α) (h : k' ≠ k) :
    lookupA (setA l k v) k' = lookupA l k' := by
  induction l with
  | nil =>
    simp only [setA, lookupA]
    rw [if_neg (Ne.symm h)]
  | cons p rest ih =>
    obtain ⟨k₀, v₀⟩ := p
    by_cases h0 : k₀ = k
    · subst h0
      simp only [setA, if_pos rfl, lookupA]
      rw [if_neg (Ne.symm h), if_neg (Ne.symm h)]
    · simp only [setA, if_neg h0, lookupA]
      by_cases h1 : k₀ = k'
      · rw [if_pos h1, if_pos h1]
      · rw [if_neg h1, if_neg h1, ih]

theorem lookupA_removeA_self {κ α : Type} [DecidableEq κ]
    (l : List (κ × α)) (k : κ) : lookupA (removeA l k) k = none := by
  induction l with
  | nil => simp [removeA, lookupA]
  | cons p rest ih =>
    obtain ⟨k', v'⟩ := p
    by_cases h : k' = k
    · simp [removeA, h, ih]
    · simp [removeA, lookupA, h, ih]

theorem lookupA_removeA_ne {κ α : Type} [DecidableEq κ]
    (l : List (κ × α)) (k k' : κ) (h : k' ≠ k) :
    lookupA (removeA l k) k' = lookupA l k' := by
  induction l with
  | nil => simp [removeA]
  | cons p rest ih =>
    obtain ⟨k₀, v₀⟩ := p
    by_cases h0 : k₀ = k
    · subst h0
      simp [removeA, lookupA, ih, Ne.symm h]
    · simp only [removeA, if_neg h0, lookupA]
      by_cases h1 : k₀ = k'
      · rw [if_pos h1, if_pos h1]
      · rw [if_neg h1, if_neg h1, ih]

/-! ## Storage helper lemmas -/

theorem getUploadState_setUploadState_self (st : Storage) (f : String) (u : UploadState) :
    (st.setUploadState f u).getUploadState f = some u :=
  lookupA_setA_self st.fileUploads f u

theorem getUploadState_setUploadState_ne (st : Storage) (f g : String) (u : UploadState)
    (h : g ≠ f) : (st.setUploadState f u).getUploadState g = st.getUploadState g :=
  lookupA_setA_ne st.fileUploads f g u h

theorem getUploadState_removeCancelledDownloads (st : Storage) (f g : String) :
    (st.removeCancelledDownloads g).getUploadState f = st.getUploadState f := rfl

theorem clientSessions_setUploadState (st : Storage) (f : String) (u : UploadState) :
    (st.setUploadState f u).clientSessions = st.clientSessions := rfl

theorem shareSessions_setUploadState (st : Storage) (f : String) (u : UploadState) :
    (st.setUploadState f u).shareSessions = st.shareSessions := rfl

theorem clientSessions_removeCancelledDownloads (st : Storage) (f : String) :
    (st.removeCancelledDownloads f).clientSessions = st.clientSessions := rfl

theorem shareSessions_removeCancelledDownloads (st : Storage) (f : String) :
    (st.removeCancelledDownloads f).shareSessions = st.shareSessions := rfl

theorem cancelledDownloads_removeCancelledDownloads_self (st : Storage) (f : String) :
    lookupA (st.removeCancelledDownloads f).cancelledDownloads f = none :=
  lookupA_removeA_self st.cancelledDownloads f

/-- Function `relayTargets` reads only the client and share sessions. -/
theorem relayTargets_sessions_congr (st st' : Storage) (sender fileId : String)
    (hc : st'.clientSessions = st.clientSessions)
    (hs : st'.shareSessions = st.shareSessions) :
    relayTargets st' sender fileId = relayTargets st sender fileId := by
  unfold relayTargets Storage.getClientSession Storage.getShareSession
  rw [hc, hs]

theorem chunkInsert_status (u : UploadState) (i t : Nat) :
    (chunkInsert u i t).status = u.status := by
  unfold chunkInsert; split <;> rfl

theorem chunkInsert_totalChunks (u : UploadState) (i t : Nat) :
    (chunkInsert u i t).totalChunks = u.totalChunks := by
  unfold chunkInsert; split <;> rfl

theorem chunkInsert_fileName (u : UploadState) (i t : Nat) :
    (chunkInsert u i t).fileName = u.fileName := by
  unfold chunkInsert; split <;> rfl

theorem chunkInsert_fileSize (u : UploadState) (i t : Nat) :
    (chunkInsert u i t).fileSize = u.fileSize := by
  unfold chunkInsert; split <;> rfl

theorem chunkInsert_startTime (u : UploadState) (i t : Nat) :
    (chunkInsert u i t).startTime = u.startTime := by
  unfold chunkInsert; split <;> rfl

theorem chunkInsert_clientId (u : UploadState) (i t : Nat) :
    (chunkInsert u i t).clientId = u.clientId := by
  unfold chunkInsert; split <;> rfl

theorem chunkInsert_uploadedChunks (u : UploadState) (i t : Nat) :
    (chunkInsert u i t).uploadedChunks =
      if i ∈ u.uploadedChunks then u.uploadedChunks else u.uploadedChunks ++ [i] := by
  unfold chunkInsert; split <;> rfl

/-- Reduction of `uploadChunk` to its body once the load succeeds and the
cancelled/paused rejection passes. -/
theorem uploadChunk_eq_go (st : Storage) (fs : Nat) (d : ChunkData) (now : Nat)
    (u : UploadState) (h : st.getUploadState d.fileId = some u)
    (hne : ¬(u.status = .cancelled ∨ u.status = .paused)) :
    uploadChunk st fs d now = uploadChunkGo st fs d now u := by
  unfold uploadChunk
  rw [h]
  exact if_neg hne

theorem uploadChunk_eq_notFound (st : Storage) (fs : Nat) (d : ChunkData) (now : Nat)
    (h : st.getUploadState d.fileId = none) :
    uploadChunk st fs d now = ⟨st, fs, [], .notFound⟩ := by
  unfold uploadChunk
  rw [h]

theorem uploadChunk_eq_rejected (st : Storage) (fs : Nat) (d : ChunkData) (now : Nat)
    (u : UploadState) (h : st.getUploadState d.fileId = some u)
    (hcp : u.status = .cancelled ∨ u.status = .paused) :
    uploadChunk st fs d now = ⟨st, fs, [], .cancelledOrPaused⟩ := by
  unfold uploadChunk
  rw [h]
  simp [hcp]

theorem chunkInsert_of_mem (u : UploadState) (i t : Nat) (hmem : i ∈ u.uploadedChunks) :
    chunkInsert u i t = u := if_pos hmem

theorem chunkInsert_mem_self (u : UploadState) (i t : Nat) :
    i ∈ (chunkInsert u i t).uploadedChunks := by
  unfold chunkInsert
  by_cases hmem : i ∈ u.uploadedChunks
  · rw [if_pos hmem]; exact hmem
  · rw [if_neg hmem]; simp

theorem chunkStep_uploadedChunks (u : UploadState) (i t : Nat) :
    (chunkStep u i t).uploadedChunks = (chunkInsert u i t).uploadedChunks := by
  unfold chunkStep
  dsimp only
  split <;> rfl

theorem chunkStep_totalChunks (u : UploadState) (i t : Nat) :
    (chunkStep u i t).totalChunks = u.totalChunks := by
  unfold chunkStep
  dsimp only
  split <;> simp [chunkInsert_totalChunks]

theorem chunkStep_status_cases (u : UploadState) (i t : Nat) :
    (chunkStep u i t).status = .completed ∨ (chunkStep u i t).status = u.status := by
  unfold chunkStep
  dsimp only
  split
  · left; rfl
  · right; exact chunkInsert_status u i t

theorem chunkStep_subset (u : UploadState) (i t : Nat) :
    u.uploadedChunks ⊆ (chunkStep u i t).uploadedChunks := by
  rw [chunkStep_uploadedChunks, chunkInsert_uploadedChunks]
  split
  · exact fun x hx => hx
  · exact List.subset_append_left _ _

theorem chunkStep_chunkInv (u : UploadState) (i t : Nat) (hInv : chunkInv u)
    (hi : i < u.totalChunks) : chunkInv (chunkStep u i t) := by
  constructor
  · rw [chunkStep_uploadedChunks, chunkInsert_uploadedChunks]
    split
    · exact hInv.1
    · rename_i hmem
      rw [List.nodup_append]
      refine ⟨hInv.1, List.nodup_singleton i, ?_⟩
      intro a ha hb
      have hai : a = i := List.mem_singleton.1 hb
      subst hai
      exact hmem ha
  · intro j hj
    rw [chunkStep_totalChunks]
    rw [chunkStep_uploadedChunks, chunkInsert_uploadedChunks] at hj
    split at hj
    · exact hInv.2 j hj
    · rcases List.mem_append.1 hj with hjl | hjr
      · exact hInv.2 j hjl
      · rw [List.mem_singleton.1 hjr]; exact hi

theorem chunkInv_length_le (u : UploadState) (h : chunkInv u) :
    u.uploadedChunks.length ≤ u.totalChunks := by
  have hcard : u.uploadedChunks.toFinset.card = u.uploadedChunks.length :=
    List.toFinset_card_of_nodup h.1
  have hsub : u.uploadedChunks.toFinset ⊆ Finset.range u.totalChunks := by
    intro x hx
    exact Finset.mem_range.2 (h.2 x (List.mem_toFinset.1 hx))
  calc u.uploadedChunks.length = u.uploadedChunks.toFinset.card := hcard.symm
    _ ≤ (Finset.range u.totalChunks).card := Finset.card_le_card hsub
    _ = u.totalChunks := Finset.card_range _

theorem uploadChunkGo_storage_self (st : Storage) (fs : Nat) (d : ChunkData) (now : Nat)
    (u : UploadState) (h : st.getUploadState d.fileId = some u) :
    (uploadChunkGo st fs d now u).storage.getUploadState d.fileId =
      some (chunkStep u d.chunkIndex now) := by
  unfold uploadChunkGo chunkStep
  dsimp only
  by_cases hmem : d.chunkIndex ∈ u.uploadedChunks
  · simp only [if_pos hmem]
    split
    · rw [getUploadState_removeCancelledDownloads, getUploadState_setUploadState_self]
    · rw [h, chunkInsert_of_mem u d.chunkIndex now hmem]
  · simp only [if_neg hmem]
    split
    · rw [getUploadState_removeCancelledDownloads, getUploadState_setUploadState_self]
    · rw [getUploadState_setUploadState_self]

theorem uploadChunkGo_storage_other (st : Storage) (fs : Nat) (d : ChunkData) (now : Nat)
    (u : UploadState) (f : String) (hf : f ≠ d.fileId) :
    (uploadChunkGo st fs d now u).storage.getUploadState f = st.getUploadState f := by
  unfold uploadChunkGo
  dsimp only
  by_cases hmem : d.chunkIndex ∈ u.uploadedChunks
  · simp only [if_pos hmem]
    split
    · rw [getUploadState_removeCancelledDownloads, getUploadState_setUploadState_ne _ _ _ _ hf]
    · rfl
  · simp only [if_neg hmem]
    split
    · rw [getUploadState_removeCancelledDownloads, getUploadState_setUploadState_ne _ _ _ _ hf,
        getUploadState_setUploadState_ne _ _ _ _ hf]
    · rw [getUploadState_setUploadState_ne _ _ _ _ hf]

theorem uploadChunkGo_sessions (st : Storage) (fs : Nat) (d : ChunkData) (now : Nat)
    (u : UploadState) :
    (uploadChunkGo st fs d now u).storage.clientSessions = st.clientSessions ∧
    (uploadChunkGo st fs d now u).storage.shareSessions = st.shareSessions := by
  unfold uploadChunkGo
  dsimp only
  by_cases hmem : d.chunkIndex ∈ u.uploadedChunks
  · simp only [if_pos hmem]
    split <;> exact ⟨rfl, rfl⟩
  · simp only [if_neg hmem]
    split <;> exact ⟨rfl, rfl⟩

theorem uploadChunk_sessions (st : Storage) (fs : Nat) (d : ChunkData) (now : Nat) :
    (uploadChunk st fs d now).storage.clientSessions = st.clientSessions ∧
    (uploadChunk st fs d now).storage.shareSessions = st.shareSessions := by
  unfold uploadChunk
  cases hcase : st.getUploadState d.fileId with
  | none => exact ⟨rfl, rfl⟩
  | some u =>
    dsimp only
    by_cases hcp : u.status = .cancelled ∨ u.status = .paused
    · rw [if_pos hcp]
      exact ⟨rfl, rfl⟩
    · rw [if_neg hcp]
      exact uploadChunkGo_sessions st fs d now u

theorem uploadChunk_storage_self (st : Storage) (fs : Nat) (d : ChunkData) (now : Nat)
    (u : UploadState) (h : st.getUploadState d.fileId = some u)
    (hne : ¬(u.status = .cancelled ∨ u.status = .paused)) :
    (uploadChunk st fs d now).storage.getUploadState d.fileId =
      some (chunkStep u d.chunkIndex now) := by
  rw [uploadChunk_eq_go st fs d now u h hne]
  exact uploadChunkGo_storage_self st fs d now u h

theorem uploadChunk_storage_other (st : Storage) (fs : Nat) (d : ChunkData) (now : Nat)
    (f : String) (hf : f ≠ d.fileId) :
    (uploadChunk st fs d now).storage.getUploadState f = st.getUploadState f := by
  unfold uploadChunk
  cases hcase : st.getUploadState d.fileId with
  | none => rfl
  | some u =>
    dsimp only
    by_cases hcp : u.status = .cancelled ∨ u.status = .paused
    · rw [if_pos hcp]
    · rw [if_neg hcp]
      exact uploadChunkGo_storage_other st fs d now u f hf

/-! ## Claim C1 -/

/-- C1, counterexample: a one-chunk upload completes on the chunk that was
just inserted even though that very chunk's ack is still pending — the
completion check reads only `|uploadedChunks| = totalChunks` and
`status ≠ completed`, never `pendingAcks`. -/
theorem uploadChunk_completes_with_pending_acks_cex :
    let out := uploadChunk (stPair (mkUpload "f" 1 [] "A" .uploading)) 0 ⟨"f", 0, "A"⟩ 100
    (out.storage.getUploadState "f").map (fun u => u.status) = some .completed ∧
    (out.storage.getUploadState "f").map (fun u => u.pendingAcks) = some [(0, ⟨100, 0⟩)] := by
  decide

/-- C1, amended: the status transitions to `completed` exactly when
`|uploadedChunks| = totalChunks` after the insertion and the status is not
already `completed` (pending acks are not consulted); on that transition the
handler emits `upload-complete` to the sender, increments the persistent
`filesSent` counter, and clears the cancelled marks for the fileId; otherwise
the status and the counter are unchanged and no `upload-complete` is
emitted. -/
theorem uploadChunk_completion_exact (st : Storage) (fs : Nat) (d : ChunkData)
    (now : Nat) (u : UploadState) (h : st.getUploadState d.fileId = some u)
    (hc : u.status ≠ .cancelled) (hp : u.status ≠ .paused) :
    ((chunkInsert u d.chunkIndex now).uploadedChunks.length = u.totalChunks ∧
        u.status ≠ .completed →
      ((uploadChunk st fs d now).storage.getUploadState d.fileId).map
          (fun v => v.status) = some .completed ∧
      Emit.uploadComplete d.fileId u.fileName u.fileSize (now - u.startTime) ∈
        (uploadChunk st fs d now).emits ∧
      (uploadChunk st fs d now).filesSent = fs + 1 ∧
      lookupA (uploadChunk st fs d now).storage.cancelledDownloads d.fileId = none) ∧
    (¬((chunkInsert u d.chunkIndex now).uploadedChunks.length = u.totalChunks ∧
        u.status ≠ .completed) →
      ((uploadChunk st fs d now).storage.getUploadState d.fileId).map
          (fun v => v.status) = some u.status ∧
      (uploadChunk st fs d now).filesSent = fs ∧
      Emit.uploadComplete d.fileId u.fileName u.fileSize (now - u.startTime) ∉
        (uploadChunk st fs d now).emits) := by
  have hne : ¬(u.status = .cancelled ∨ u.status = .paused) := by
    rintro (h1 | h2)
    · exact hc h1
    · exact hp h2
  rw [uploadChunk_eq_go st fs d now u h hne]
  unfold uploadChunkGo
  constructor
  · rintro ⟨hlen, hstat⟩
    have hcond : (chunkInsert u d.chunkIndex now).uploadedChunks.length =
        (chunkInsert u d.chunkIndex now).totalChunks ∧
        (chunkInsert u d.chunkIndex now).status ≠ .completed := by
      rw [chunkInsert_totalChunks, chunkInsert_status]
      exact ⟨hlen, hstat⟩
    rw [if_pos hcond]
    refine ⟨?_, ?_, rfl, ?_⟩
    · rw [getUploadState_removeCancelledDownloads, getUploadState_setUploadState_self]
      rfl
    · rw [← chunkInsert_fileName u d.chunkIndex now, ← chunkInsert_fileSize u d.chunkIndex now,
        ← chunkInsert_startTime u d.chunkIndex now]
      simp
    · exact cancelledDownloads_removeCancelledDownloads_self _ _
  · intro hncond
    have hcond' : ¬((chunkInsert u d.chunkIndex now).uploadedChunks.length =
        (chunkInsert u d.chunkIndex now).totalChunks ∧
        (chunkInsert u d.chunkIndex now).status ≠ .completed) := by
      rw [chunkInsert_totalChunks, chunkInsert_status]
      exact hncond
    rw [if_neg hcond']
    refine ⟨?_, rfl, ?_⟩
    · by_cases hmem : d.chunkIndex ∈ u.uploadedChunks
      · rw [if_pos hmem, h]
        rfl
      · rw [if_neg hmem, getUploadState_setUploadState_self]
        simp [chunkInsert_status]
    · intro hmem'
      simp only [List.mem_cons, List.mem_flatMap] at hmem'
      rcases hmem' with h1 | ⟨tg, _, h2⟩
      · exact absurd h1 (by simp)
      · simp at h2

/-- Witness for `uploadChunk_completion_exact`: a two-chunk upload receiving
its second chunk. -/
theorem uploadChunk_completion_exact_witness :
    ((chunkInsert (mkUpload "f" 2 [0] "A" .uploading) 1 100).uploadedChunks.length = 2 ∧
      UploadStatus.uploading ≠ .completed) ∧
    ((uploadChunk (stPair (mkUpload "f" 2 [0] "A" .uploading)) 4 ⟨"f", 1, "A"⟩ 100).storage.getUploadState
        "f").map (fun v => v.status) = some .completed ∧
    (uploadChunk (stPair (mkUpload "f" 2 [0] "A" .uploading)) 4 ⟨"f", 1, "A"⟩ 100).filesSent = 5 := by
  have hmain := uploadChunk_completion_exact (stPair (mkUpload "f" 2 [0] "A" .uploading)) 4
    ⟨"f", 1, "A"⟩ 100 (mkUpload "f" 2 [0] "A" .uploading) (by decide) (by decide) (by decide)
  have hpre : (chunkInsert (mkUpload "f" 2 [0] "A" .uploading) 1 100).uploadedChunks.length = 2 ∧
      UploadStatus.uploading ≠ .completed := by decide
  have hres := hmain.1 (by exact ⟨hpre.1, by decide⟩)
  exact ⟨hpre, hres.1, hres.2.2.1⟩

/-! ## Claim C2 -/

/-- C2, counterexample: with `status = "failed"` (file f, 2 chunks, chunk 0
already in), a further `upload-chunk` is still fully processed — a
`chunk-received` is routed to receiver B and the status even leaves `failed`
for `completed`. The handler only rejects missing/cancelled/paused uploads. -/
theorem uploadChunk_failed_still_relays_cex :
    let out := uploadChunk (stPair (mkUpload "f" 2 [0] "A" .failed)) 0 ⟨"f", 1, "A"⟩ 100
    Emit.chunkReceivedTo "B" "f" 1 2 ∈ out.emits ∧
    (out.storage.getUploadState "f").map (fun u => u.status) = some .completed := by
  decide

/-- C2, amended: the `upload-chunk` handler blocks further chunks only for
missing, `cancelled`, or `paused` uploads: for `cancelled`/`paused` it relays
nothing, changes nothing, and reports the rejection to the sender's callback.
A `failed` upload is not rejected (its chunks are still relayed, see the
counterexample). -/
theorem uploadChunk_cancelled_paused_reject (st : Storage) (fs : Nat) (d : ChunkData)
    (now : Nat) (u : UploadState) (h : st.getUploadState d.fileId = some u)
    (hcp : u.status = .cancelled ∨ u.status = .paused) :
    uploadChunk st fs d now = ⟨st, fs, [], .cancelledOrPaused⟩ := by
  unfold uploadChunk
  rw [h]
  simp [hcp]

/-- Witness for `uploadChunk_cancelled_paused_reject` at a concrete state. -/
theorem uploadChunk_cancelled_paused_reject_witness :
    uploadChunk (stPair (mkUpload "f" 2 [0] "A" .cancelled)) 0 ⟨"f", 1, "A"⟩ 100 =
      ⟨stPair (mkUpload "f" 2 [0] "A" .cancelled), 0, [], .cancelledOrPaused⟩ :=
  uploadChunk_cancelled_paused_reject _ 0 ⟨"f", 1, "A"⟩ 100
    (mkUpload "f" 2 [0] "A" .cancelled) (by decide) (Or.inl (by decide))

theorem uploadChunk_pres (st : Storage) (fs : Nat) (d : ChunkData) (now : Nat)
    (f : String) (u : UploadState) (hu : st.getUploadState f = some u) :
    ∃ u', (uploadChunk st fs d now).storage.getUploadState f = some u' ∧
      u'.totalChunks = u.totalChunks ∧ u.uploadedChunks ⊆ u'.uploadedChunks := by
  by_cases hf : f = d.fileId
  · subst hf
    by_cases hcp : u.status = .cancelled ∨ u.status = .paused
    · rw [uploadChunk_eq_rejected st fs d now u hu hcp]
      exact ⟨u, hu, rfl, fun x hx => hx⟩
    · exact ⟨chunkStep u d.chunkIndex now, uploadChunk_storage_self st fs d now u hu hcp,
        chunkStep_totalChunks u _ _, chunkStep_subset u _ _⟩
  · rw [uploadChunk_storage_other st fs d now f hf]
    exact ⟨u, hu, rfl, fun x hx => hx⟩

theorem uploadChunk_pres_none (st : Storage) (fs : Nat) (d : ChunkData) (now : Nat)
    (f : String) (h : st.getUploadState f = none) :
    (uploadChunk st fs d now).storage.getUploadState f = none := by
  by_cases hf : f = d.fileId
  · subst hf
    rw [uploadChunk_eq_notFound st fs d now h]
    exact h
  · rw [uploadChunk_storage_other st fs d now f hf]
    exact h

theorem uploadChunk_StInv (st : Storage) (fs : Nat) (d : ChunkData) (now : Nat)
    (hInv : StInv st)
    (hidx : ∀ u, st.getUploadState d.fileId = some u → d.chunkIndex < u.totalChunks) :
    StInv (uploadChunk st fs d now).storage := by
  intro f u' hu'
  by_cases hf : f = d.fileId
  · subst hf
    cases hcase : st.getUploadState d.fileId with
    | none =>
      rw [uploadChunk_eq_notFound st fs d now hcase] at hu'
      exact hInv _ _ hu'
    | some u =>
      by_cases hcp : u.status = .cancelled ∨ u.status = .paused
      · rw [uploadChunk_eq_rejected st fs d now u hcase hcp] at hu'
        exact hInv _ _ hu'
      · rw [uploadChunk_storage_self st fs d now u hcase hcp] at hu'
        cases hu'
        exact chunkStep_chunkInv u d.chunkIndex now (hInv _ _ hcase) (hidx u hcase)
  · rw [uploadChunk_storage_other st fs d now f hf] at hu'
    exact hInv _ _ hu'

theorem runChunks_StInv (events : List (ChunkData × Nat)) :
    ∀ st fs, StInv st →
    (∀ p ∈ events, ∀ u, st.getUploadState p.1.fileId = some u →
      p.1.chunkIndex < u.totalChunks) →
    StInv (runChunks st fs events).1 := by
  induction events with
  | nil => exact fun st fs h _ => h
  | cons p rest ih =>
    intro st fs hInv hB
    obtain ⟨d, t⟩ := p
    simp only [runChunks]
    have hstep : StInv (uploadChunk st fs d t).storage :=
      uploadChunk_StInv st fs d t hInv
        (fun u hu => hB (d, t) (List.mem_cons_self _ _) u hu)
    refine ih _ _ hstep ?_
    intro p' hp' u' hu'
    cases hcase : st.getUploadState p'.1.fileId with
    | none =>
      rw [uploadChunk_pres_none st fs d t _ hcase] at hu'
      cases hu'
    | some u0 =>
      obtain ⟨u'', hu'', htot, _⟩ := uploadChunk_pres st fs d t _ u0 hcase
      rw [hu''] at hu'
      cases hu'
      rw [htot]
      exact hB p' (List.mem_cons_of_mem _ hp') u0 hcase

theorem runChunks_mono (events : List (ChunkData × Nat)) :
    ∀ st fs f u, st.getUploadState f = some u →
    ∃ u', (runChunks st fs events).1.getUploadState f = some u' ∧
      u.uploadedChunks ⊆ u'.uploadedChunks ∧ u'.totalChunks = u.totalChunks := by
  induction events with
  | nil => exact fun st fs f u hu => ⟨u, hu, fun x hx => hx, rfl⟩
  | cons p rest ih =>
    intro st fs f u hu
    obtain ⟨d, t⟩ := p
    simp only [runChunks]
    obtain ⟨u1, hu1, htot1, hsub1⟩ := uploadChunk_pres st fs d t f u hu
    obtain ⟨u2, hu2, hsub2, htot2⟩ := ih _ _ f u1 hu1
    exact ⟨u2, hu2, fun x hx => hsub2 (hsub1 hx), htot2.trans htot1⟩

/-! ## Claim C4 -/

/-- C4, counterexample: the handler never bounds `chunkIndex`, so delivering
indices 5 and 7 to a 1-chunk upload leaves `uploadedChunks = [5, 7]`:
`5 ∉ [0, 1)` and `|uploadedChunks| = 2 > totalChunks = 1`. -/
theorem uploadChunk_unbounded_index_cex :
    let final := (runChunks (stPair (mkUpload "f" 1 [] "A" .uploading)) 0
      [(⟨"f", 5, "A"⟩, 100), (⟨"f", 7, "A"⟩, 200)]).1
    (final.getUploadState "f").map (fun u => u.uploadedChunks) = some [5, 7] ∧
    ¬(5 < 1) ∧
    (final.getUploadState "f").map
      (fun u => decide (u.uploadedChunks.length ≤ u.totalChunks)) = some false := by
  decide

/-- C4, amended: the handler performs no bounds check, so the invariant holds
only for in-range deliveries: if every upload record initially satisfies
`uploadedChunks ⊆ [0, totalChunks)` (duplicate-free) and every delivered
`chunkIndex` is below the `totalChunks` of its target upload, then after any
sequence of `upload-chunk` events all records still satisfy the invariant and
`|uploadedChunks| ≤ totalChunks`; moreover `uploadedChunks` only ever grows
(unconditionally), with `totalChunks` unchanged. -/
theorem runChunks_bounds_inv (events : List (ChunkData × Nat)) (st : Storage) (fs : Nat)
    (hInv : StInv st)
    (hB : ∀ p ∈ events, ∀ u, st.getUploadState p.1.fileId = some u →
      p.1.chunkIndex < u.totalChunks) :
    StInv (runChunks st fs events).1 ∧
    (∀ f u', (runChunks st fs events).1.getUploadState f = some u' →
      u'.uploadedChunks.length ≤ u'.totalChunks) ∧
    (∀ f u, st.getUploadState f = some u →
      ∃ u', (runChunks st fs events).1.getUploadState f = some u' ∧
        u.uploadedChunks ⊆ u'.uploadedChunks ∧ u'.totalChunks = u.totalChunks) := by
  have hrun := runChunks_StInv events st fs hInv hB
  exact ⟨hrun, fun f u' h => chunkInv_length_le u' (hrun f u' h),
    fun f u hu => runChunks_mono events st fs f u hu⟩

/-- Witness for `runChunks_bounds_inv`: delivering chunks 0 and 1 of a
3-chunk upload. -/
theorem runChunks_bounds_inv_witness :
    StInv (runChunks (stPair (mkUpload "f" 3 [] "A" .uploading)) 0
      [(⟨"f", 0, "A"⟩, 10), (⟨"f", 1, "A"⟩, 20)]).1 := by
  have hInv : StInv (stPair (mkUpload "f" 3 [] "A" .uploading)) := by
    intro f u hu
    by_cases hf : "f" = f
    · subst hf
      have hval : (stPair (mkUpload "f" 3 [] "A" .uploading)).getUploadState "f" =
          some (mkUpload "f" 3 [] "A" .uploading) := by decide
      rw [hval] at hu
      cases hu
      exact ⟨by decide, by decide⟩
    · have hval : (stPair (mkUpload "f" 3 [] "A" .uploading)).getUploadState f = none := by
        simp [stPair, Storage.getUploadState, lookupA, hf]
      rw [hval] at hu
      cases hu
  have hB : ∀ p ∈ ([(⟨"f", 0, "A"⟩, 10), (⟨"f", 1, "A"⟩, 20)] : List (ChunkData × Nat)),
      ∀ u, (stPair (mkUpload "f" 3 [] "A" .uploading)).getUploadState p.1.fileId = some u →
        p.1.chunkIndex < u.totalChunks := by
    intro p hp u hu
    have hval : (stPair (mkUpload "f" 3 [] "A" .uploading)).getUploadState "f" =
        some (mkUpload "f" 3 [] "A" .uploading) := by decide
    simp only [List.mem_cons, List.mem_singleton, List.not_mem_nil, or_false] at hp
    rcases hp with rfl | rfl
    · rw [hval] at hu
      cases hu
      decide
    · rw [hval] at hu
      cases hu
      decide
  exact (runChunks_bounds_inv _ _ 0 hInv hB).1

theorem chunkStep_mem_self (u : UploadState) (i t : Nat) :
    i ∈ (chunkStep u i t).uploadedChunks := by
  rw [chunkStep_uploadedChunks]
  exact chunkInsert_mem_self u i t

theorem chunkStep_status_not_cp (u : UploadState) (i t : Nat)
    (hne : ¬(u.status = .cancelled ∨ u.status = .paused)) :
    ¬((chunkStep u i t).status = .cancelled ∨ (chunkStep u i t).status = .paused) := by
  rcases chunkStep_status_cases u i t with hs | hs <;> rw [hs]
  · rintro (hc | hc) <;> cases hc
  · exact hne

theorem chunkStep_no_recompletion (u : UploadState) (i t : Nat) :
    ¬((chunkStep u i t).uploadedChunks.length = (chunkStep u i t).totalChunks ∧
      (chunkStep u i t).status ≠ .completed) := by
  unfold chunkStep
  dsimp only
  split
  · rintro ⟨_, h2⟩
    exact h2 rfl
  · rename_i hcond
    exact hcond

theorem uploadChunkGo_of_mem_noComplete (st : Storage) (fs : Nat) (d : ChunkData)
    (now : Nat) (u : UploadState) (hmem : d.chunkIndex ∈ u.uploadedChunks)
    (hnc : ¬(u.uploadedChunks.length = u.totalChunks ∧ u.status ≠ .completed)) :
    uploadChunkGo st fs d now u =
      ⟨st, fs,
       Emit.chunkUploaded d.fileId d.chunkIndex
           (roundedProgress u.uploadedChunks.length u.totalChunks)
           u.uploadedChunks.length u.totalChunks ::
         (relayTargets st d.clientId d.fileId).flatMap (fun target =>
           [Emit.chunkReceivedTo target d.fileId d.chunkIndex u.totalChunks,
            Emit.chunkAcknowledgedTo d.clientId d.fileId d.chunkIndex]),
       .success⟩ := by
  unfold uploadChunkGo
  dsimp only
  rw [chunkInsert_of_mem u d.chunkIndex now hmem, if_pos hmem, if_neg hnc]

/-- Each processed `upload-chunk` emits exactly one `chunk-received` per
occurrence of the receiver among the relay targets. -/
theorem count_chunkReceived_relay (targets : List String) (t sender f : String) (i T : Nat) :
    ((targets.flatMap (fun tg =>
      [Emit.chunkReceivedTo tg f i T, Emit.chunkAcknowledgedTo sender f i])).count
      (Emit.chunkReceivedTo t f i T)) = targets.count t := by
  induction targets with
  | nil => rfl
  | cons tg rest ih =>
    simp only [List.flatMap_cons, List.count_append, List.count_cons, List.count_nil, ih]
    by_cases htg : tg = t
    · subst htg
      simp [Nat.add_comm]
    · simp [htg]

theorem uploadChunkGo_count_recv (st : Storage) (fs : Nat) (d : ChunkData) (now : Nat)
    (u : UploadState) (t : String) :
    (uploadChunkGo st fs d now u).emits.count
        (Emit.chunkReceivedTo t d.fileId d.chunkIndex u.totalChunks) =
      (relayTargets st d.clientId d.fileId).count t := by
  unfold uploadChunkGo
  dsimp only
  have hT : (chunkInsert u d.chunkIndex now).totalChunks = u.totalChunks :=
    chunkInsert_totalChunks u d.chunkIndex now
  have hsess : ∀ st1 : Storage, st1.clientSessions = st.clientSessions →
      st1.shareSessions = st.shareSessions →
      relayTargets st1 d.clientId d.fileId = relayTargets st d.clientId d.fileId :=
    fun st1 hc hs => relayTargets_sessions_congr st st1 d.clientId d.fileId hc hs
  by_cases hmem : d.chunkIndex ∈ u.uploadedChunks
  · rw [if_pos hmem]
    split
    · simp only [List.count_cons, List.count_append, List.count_nil, hT,
        count_chunkReceived_relay]
      simp
    · simp only [List.count_cons, hT, count_chunkReceived_relay]
      simp
  · rw [if_neg hmem]
    rw [hsess (st.setUploadState d.fileId (chunkInsert u d.chunkIndex now)) rfl rfl]
    split
    · simp only [List.count_cons, List.count_append, List.count_nil, hT,
        count_chunkReceived_relay]
      simp
    · simp only [List.count_cons, hT, count_chunkReceived_relay]
      simp

/-! ## Claim C5 -/

/-- C5, counterexample: delivering the same `upload-chunk(f, 0)` twice routes
`chunk-received` to the live receiver B on *both* deliveries (two in total,
not one) — the relay loop runs outside the duplicate guard — although the
stored state is unchanged by the duplicate. -/
theorem uploadChunk_duplicate_double_relay_cex :
    let d : ChunkData := ⟨"f", 0, "A"⟩
    let o1 := uploadChunk (stPair (mkUpload "f" 3 [] "A" .uploading)) 0 d 100
    let o2 := uploadChunk o1.storage o1.filesSent d 200
    o1.emits.count (Emit.chunkReceivedTo "B" "f" 0 3) = 1 ∧
    o2.emits.count (Emit.chunkReceivedTo "B" "f" 0 3) = 1 ∧
    o2.storage = o1.storage := by
  decide

/-- C5, amended: re-delivering the same `upload-chunk(fileId, i)` leaves the
stored state and the `filesSent` counter exactly as after the first delivery,
but the relay is *per delivery*: each of the two deliveries routes exactly one
`chunk-received` per occurrence of a live receiver in the relay target list,
so a receiver gets two copies, not one. -/
theorem uploadChunk_duplicate_idempotent (st : Storage) (fs : Nat) (d : ChunkData)
    (now now' : Nat) (u : UploadState)
    (h : st.getUploadState d.fileId = some u)
    (hne : ¬(u.status = .cancelled ∨ u.status = .paused)) :
    (uploadChunk (uploadChunk st fs d now).storage (uploadChunk st fs d now).filesSent
        d now').storage = (uploadChunk st fs d now).storage ∧
    (uploadChunk (uploadChunk st fs d now).storage (uploadChunk st fs d now).filesSent
        d now').filesSent = (uploadChunk st fs d now).filesSent ∧
    (∀ t, (uploadChunk st fs d now).emits.count
        (Emit.chunkReceivedTo t d.fileId d.chunkIndex u.totalChunks) =
      (relayTargets st d.clientId d.fileId).count t) ∧
    (∀ t, (uploadChunk (uploadChunk st fs d now).storage (uploadChunk st fs d now).filesSent
        d now').emits.count
        (Emit.chunkReceivedTo t d.fileId d.chunkIndex u.totalChunks) =
      (relayTargets st d.clientId d.fileId).count t) := by
  have ho1 : uploadChunk st fs d now = uploadChunkGo st fs d now u :=
    uploadChunk_eq_go st fs d now u h hne
  have hstor : (uploadChunk st fs d now).storage.getUploadState d.fileId =
      some (chunkStep u d.chunkIndex now) :=
    uploadChunk_storage_self st fs d now u h hne
  have hrne := chunkStep_status_not_cp u d.chunkIndex now hne
  have ho2 : uploadChunk (uploadChunk st fs d now).storage
      (uploadChunk st fs d now).filesSent d now' =
      uploadChunkGo (uploadChunk st fs d now).storage
        (uploadChunk st fs d now).filesSent d now' (chunkStep u d.chunkIndex now) :=
    uploadChunk_eq_go _ _ d now' _ hstor hrne
  have hgo2 := uploadChunkGo_of_mem_noComplete (uploadChunk st fs d now).storage
    (uploadChunk st fs d now).filesSent d now' (chunkStep u d.chunkIndex now)
    (chunkStep_mem_self u d.chunkIndex now)
    (chunkStep_no_recompletion u d.chunkIndex now)
  refine ⟨?_, ?_, ?_, ?_⟩
  · rw [ho2, hgo2]
  · rw [ho2, hgo2]
  · intro t
    rw [ho1]
    exact uploadChunkGo_count_recv st fs d now u t
  · intro t
    rw [ho2]
    have := uploadChunkGo_count_recv (uploadChunk st fs d now).storage
      (uploadChunk st fs d now).filesSent d now' (chunkStep u d.chunkIndex now) t
    rw [chunkStep_totalChunks] at this
    rw [this]
    have hsess := uploadChunk_sessions st fs d now
    rw [relayTargets_sessions_congr st (uploadChunk st fs d now).storage
      d.clientId d.fileId hsess.1 hsess.2]

/-- Witness for `uploadChunk_duplicate_idempotent` at the counterexample
state. -/
theorem uploadChunk_duplicate_idempotent_witness :
    (uploadChunk (uploadChunk (stPair (mkUpload "f" 3 [] "A" .uploading)) 0 ⟨"f", 0, "A"⟩ 100).storage
        (uploadChunk (stPair (mkUpload "f" 3 [] "A" .uploading)) 0 ⟨"f", 0, "A"⟩ 100).filesSent
        ⟨"f", 0, "A"⟩ 200).storage =
      (uploadChunk (stPair (mkUpload "f" 3 [] "A" .uploading)) 0 ⟨"f", 0, "A"⟩ 100).storage :=
  (uploadChunk_duplicate_idempotent (stPair (mkUpload "f" 3 [] "A" .uploading)) 0
    ⟨"f", 0, "A"⟩ 100 200 (mkUpload "f" 3 [] "A" .uploading) (by decide) (by decide)).1

/-! ## Election lemmas -/

theorem electionStep_eq_noNode (cs : ClusterState) (n : String)
    (hn : lookupA cs.nodes n = none) : electionStep cs n = (cs, []) := by
  unfold electionStep
  rw [hn]

theorem electionStep_eq_acquire (cs : ClusterState) (n : String) (isM : Bool)
    (hn : lookupA cs.nodes n = some isM) (hold : cs.lockHolder = none) :
    electionStep cs n = (⟨some n, setA cs.nodes n true⟩,
      if isM then [] else [Emit.clusterRoleChange n .master]) := by
  unfold electionStep
  rw [hn]
  dsimp only
  rw [hold]

theorem electionStep_eq_refresh (cs : ClusterState) (n : String) (isM : Bool)
    (hn : lookupA cs.nodes n = some isM) (hold : cs.lockHolder = some n) :
    electionStep cs n = (⟨cs.lockHolder, setA cs.nodes n true⟩,
      if isM then [] else [Emit.clusterRoleChange n .master]) := by
  unfold electionStep
  rw [hn]
  dsimp only
  rw [hold]
  dsimp only
  rw [if_pos rfl, ← hold]

theorem electionStep_eq_demoted (cs : ClusterState) (n holder : String)
    (hn : lookupA cs.nodes n = some true) (hold : cs.lockHolder = some holder)
    (hh : holder ≠ n) :
    electionStep cs n = (⟨cs.lockHolder, setA cs.nodes n false⟩,
      [Emit.clusterRoleChange n .worker]) := by
  unfold electionStep
  rw [hn]
  dsimp only
  rw [hold]
  dsimp only
  rw [if_neg hh, if_pos rfl, ← hold]

theorem electionStep_eq_stay (cs : ClusterState) (n holder : String)
    (hn : lookupA cs.nodes n = some false) (hold : cs.lockHolder = some holder)
    (hh : holder ≠ n) : electionStep cs n = (cs, []) := by
  unfold electionStep
  rw [hn]
  dsimp only
  rw [hold]
  dsimp only
  rw [if_neg hh]
  simp

theorem electionStep_only_holder (cs : ClusterState) (n : String)
    (h : lookupA (electionStep cs n).1.nodes n = some true) :
    (electionStep cs n).1.lockHolder = some n := by
  cases hn : lookupA cs.nodes n with
  | none =>
    rw [electionStep_eq_noNode cs n hn] at h
    rw [hn] at h
    cases h
  | some isM =>
    cases hold : cs.lockHolder with
    | none =>
      rw [electionStep_eq_acquire cs n isM hn hold]
    | some holder =>
      by_cases hh : holder = n
      · rw [electionStep_eq_refresh cs n isM hn (hh ▸ hold)]
        exact hh ▸ hold
      · cases isM with
        | true =>
          rw [electionStep_eq_demoted cs n holder hn hold hh] at h
          rw [lookupA_setA_self] at h
          cases h
        | false =>
          rw [electionStep_eq_stay cs n holder hn hold hh] at h
          rw [hn] at h
          cases h

theorem electionStep_MasterInv (cs : ClusterState) (n : String) (hInv : MasterInv cs) :
    MasterInv (electionStep cs n).1 := by
  intro m hm
  cases hn : lookupA cs.nodes n with
  | none =>
    rw [electionStep_eq_noNode cs n hn] at hm ⊢
    exact hInv m hm
  | some isM =>
    cases hold : cs.lockHolder with
    | none =>
      rw [electionStep_eq_acquire cs n isM hn hold] at hm ⊢
      by_cases hmn : m = n
      · rw [hmn]
      · rw [lookupA_setA_ne _ _ _ _ hmn] at hm
        have hc := hInv m hm
        rw [hold] at hc
        cases hc
    | some holder =>
      by_cases hh : holder = n
      · rw [electionStep_eq_refresh cs n isM hn (hh ▸ hold)] at hm ⊢
        by_cases hmn : m = n
        · rw [hmn]
          exact hh ▸ hold
        · rw [lookupA_setA_ne _ _ _ _ hmn] at hm
          exact hInv m hm
      · cases isM with
        | true =>
          rw [electionStep_eq_demoted cs n holder hn hold hh] at hm ⊢
          by_cases hmn : m = n
          · rw [hmn, lookupA_setA_self] at hm
            cases hm
          · rw [lookupA_setA_ne _ _ _ _ hmn] at hm
            exact hInv m hm
        | false =>
          rw [electionStep_eq_stay cs n holder hn hold hh] at hm ⊢
          exact hInv m hm

theorem runElection_MasterInv (ns : List String) :
    ∀ cs, MasterInv cs → MasterInv (runElection cs ns) := by
  induction ns with
  | nil => exact fun cs h => h
  | cons n rest ih =>
    intro cs hInv
    simp only [runElection]
    exact ih _ (electionStep_MasterInv cs n hInv)

theorem electionStep_demote (cs : ClusterState) (n holder : String)
    (hhold : cs.lockHolder = some holder) (hne : holder ≠ n)
    (hflag : lookupA cs.nodes n = some true) :
    lookupA (electionStep cs n).1.nodes n = some false ∧
    Emit.clusterRoleChange n .worker ∈ (electionStep cs n).2 := by
  rw [electionStep_eq_demoted cs n holder hflag hhold hne]
  exact ⟨lookupA_setA_self _ _ _, List.mem_singleton.2 rfl⟩

/-! ## Claim C6 -/

/-- C6: over one lock epoch (election steps with no TTL expiry in between,
starting from a state where only the lock holder's `isMaster` flag is set),
the flag invariant `isMaster m → lockHolder = m` is maintained and at most
one node has `isMaster = true`; any single step sets a node's flag to `true`
only when `cluster:master` holds that node's id; and a node holding a stale
`isMaster = true` while another node owns the lock is demoted to worker with
a `cluster-role-change` event on its next step. -/
theorem election_single_master (cs stale : ClusterState) (n loser : String)
    (ns : List String) (hInv : MasterInv cs)
    (hhold : stale.lockHolder = some n) (hne : n ≠ loser)
    (hflag : lookupA stale.nodes loser = some true) :
    MasterInv (runElection cs ns) ∧
    (∀ m1 m2, lookupA (runElection cs ns).nodes m1 = some true →
      lookupA (runElection cs ns).nodes m2 = some true → m1 = m2) ∧
    (∀ cs₀ m, lookupA (electionStep cs₀ m).1.nodes m = some true →
      (electionStep cs₀ m).1.lockHolder = some m) ∧
    (lookupA (electionStep stale loser).1.nodes loser = some false ∧
      Emit.clusterRoleChange loser .worker ∈ (electionStep stale loser).2) := by
  have hrun := runElection_MasterInv ns cs hInv
  refine ⟨hrun, ?_, fun cs₀ m => electionStep_only_holder cs₀ m,
    electionStep_demote stale loser n hhold hne hflag⟩
  intro m1 m2 h1 h2
  have e1 := hrun m1 h1
  have e2 := hrun m2 h2
  rw [e1] at e2
  cases e2
  rfl

/-- Witness for `election_single_master`: two fresh nodes electing in
sequence, and a stale master demoted after lock loss. -/
theorem election_single_master_witness :
    MasterInv (runElection ⟨none, [("n1", false), ("n2", false)]⟩ ["n1", "n2"]) ∧
    (lookupA (electionStep ⟨some "n2", [("n1", true), ("n2", false)]⟩ "n1").1.nodes "n1" =
      some false ∧
    Emit.clusterRoleChange "n1" .worker ∈
      (electionStep ⟨some "n2", [("n1", true), ("n2", false)]⟩ "n1").2) := by
  have hInv : MasterInv ⟨none, [("n1", false), ("n2", false)]⟩ := by
    intro m hm
    by_cases h1 : ("n1" : String) = m <;> by_cases h2 : ("n2" : String) = m <;>
      simp [lookupA, h1, h2] at hm
  have hmain := election_single_master ⟨none, [("n1", false), ("n2", false)]⟩
    ⟨some "n2", [("n1", true), ("n2", false)]⟩ "n2" "n1" ["n1", "n2"] hInv rfl
    (by decide) (by decide)
  exact ⟨hmain.1, hmain.2.2.2⟩

/-! ## Claim C3 -/

/-- C3, counterexample: a state with one pending ack loses it across the
Redis write/read round-trip (`setUploadState` serializes the `pendingAcks`
`Map` as `{}`), while `uploadedChunks` survives. -/
theorem redisRoundTrip_drops_pending_acks_cex :
    let u := { mkUpload "f" 3 [0] "A" .uploading with pendingAcks := [(0, ⟨5, 0⟩)] }
    (redisRoundTrip u).pendingAcks = [] ∧ u.pendingAcks ≠ [] ∧
    (redisRoundTrip u).uploadedChunks = u.uploadedChunks := by
  decide

/-- C3, amended: the write/read round-trip preserves the uploaded-chunk set,
the checksum map, and the scalar fields in both backends (the embedded
backend stores the record as-is), but the pending-ack map survives only in
the embedded backend: the Redis round-trip always comes back with no
pending-ack entries. -/
theorem uploadState_roundtrip_membership (u : UploadState) (st : Storage) (f : String) :
    (redisRoundTrip u).uploadedChunks = u.uploadedChunks ∧
    (redisRoundTrip u).chunkChecksums = u.chunkChecksums ∧
    (redisRoundTrip u).status = u.status ∧
    (redisRoundTrip u).pendingAcks = [] ∧
    (st.setUploadState f u).getUploadState f = some u :=
  ⟨rfl, rfl, rfl, rfl, getUploadState_setUploadState_self st f u⟩

/-! ## upload-init lemmas -/

theorem getClientSession_setUploadState (st : Storage) (f : String) (u : UploadState)
    (c : String) : (st.setUploadState f u).getClientSession c = st.getClientSession c :=
  rfl

theorem initLoop_all_ineligible (uploads0 : List (String × UploadState))
    (fileId : String) (st : Storage) :
    ∀ cls, (∀ c ∈ cls, receiverIneligible uploads0 st c = true) →
      initLoop uploads0 fileId st cls = (st, []) := by
  intro cls
  induction cls with
  | nil => intro _; rfl
  | cons c rest ih =>
    intro hall
    have hc := hall c (List.mem_cons_self _ _)
    unfold receiverIneligible at hc
    unfold initLoop
    cases hcs : st.getClientSession c with
    | none =>
      exact ih (fun c' hc' => hall c' (List.mem_cons_of_mem _ hc'))
    | some os =>
      rw [hcs] at hc
      dsimp only at hc ⊢
      rw [Bool.or_eq_true, decide_eq_true_iff, decide_eq_true_iff] at hc
      by_cases hA : os.downloads.length ≥ config.maxConcurrentDownloads
      · rw [if_pos hA]
        exact ih (fun c' hc' => hall c' (List.mem_cons_of_mem _ hc'))
      · rw [if_neg hA]
        have hB : os.downloads.length + countUploading uploads0 c ≥
            config.maxConcurrentTransfers := by
          rcases hc with hc | hc
          · exact absurd hc hA
          · exact hc
        rw [if_pos hB]
        exact ih (fun c' hc' => hall c' (List.mem_cons_of_mem _ hc'))

/-! ## Claim C7 -/

/-- C7, counterexample: sender A shares a session with B, and B is at the
transfer cap, so `upload-init` fails with "All receivers are busy" — yet the
`UploadState` written before the eligibility loop is still in storage after
the failure. -/
theorem uploadInit_leaves_state_cex :
    let out := uploadInit stBusy ⟨"A", "x", 48, 3⟩ "f" 100
    out.result = .error .allReceiversBusy ∧
    out.storage.getUploadState "f" = some (initialUpload "f" ⟨"A", "x", 48, 3⟩ 100) := by
  decide

/-- C7, amended: when the sender's share has other clients and the admission
loop accepts none of them, `upload-init` fails with `uploadFailed`
"All receivers are busy" and performs no receiver registration and no emit —
but the `UploadState` has already been written before the eligibility check
and remains in storage after the failure. -/
theorem uploadInit_all_receivers_busy (st : Storage) (d : InitData) (fileId : String)
    (now : Nat) (cs : ClientSession) (sid : String) (share : ShareSession)
    (hcs : st.getClientSession d.clientId = some cs)
    (hsid : cs.shareId = some sid)
    (hshare : st.getShareSession sid = some share)
    (hmulti : share.clients.length > 1)
    (hbusy : ∀ c ∈ share.clients.filter (· ≠ d.clientId),
      receiverIneligible (setA st.fileUploads fileId (initialUpload fileId d now))
        st c = true)
    (hup : countUploading st.fileUploads d.clientId < config.maxConcurrentUploads)
    (htr : countUploading st.fileUploads d.clientId + cs.downloads.length <
      config.maxConcurrentTransfers)
    (hsz : d.fileSize ≤ config.maxFileSize) :
    (uploadInit st d fileId now).result = .error .allReceiversBusy ∧
    (uploadInit st d fileId now).storage.getUploadState fileId =
      some (initialUpload fileId d now) ∧
    (uploadInit st d fileId now).emits = [] := by
  unfold uploadInit
  rw [if_neg (by simp [checkRateLimitMemory])]
  rw [if_neg (by omega)]
  rw [hcs]
  dsimp only
  rw [if_neg (by omega), if_neg (by omega)]
  rw [show (st.setUploadState fileId (initialUpload fileId d now)).getClientSession
    d.clientId = some cs from hcs]
  dsimp only
  rw [hsid]
  dsimp only
  rw [show (st.setUploadState fileId (initialUpload fileId d now)).getShareSession
    sid = some share from hshare]
  dsimp only
  have hbusy' : ∀ c ∈ share.clients.filter (· ≠ d.clientId),
      receiverIneligible
        (st.setUploadState fileId (initialUpload fileId d now)).fileUploads
        (st.setUploadState fileId (initialUpload fileId d now)) c = true := hbusy
  rw [initLoop_all_ineligible
    (st.setUploadState fileId (initialUpload fileId d now)).fileUploads fileId
    (st.setUploadState fileId (initialUpload fileId d now)) _ hbusy']
  rw [if_pos ⟨hmulti, rfl⟩]
  exact ⟨rfl, getUploadState_setUploadState_self st fileId _, rfl⟩

/-- Witness for `uploadInit_all_receivers_busy` at the counterexample state. -/
theorem uploadInit_all_receivers_busy_witness :
    (uploadInit stBusy ⟨"A", "x", 48, 3⟩ "f" 100).result = .error .allReceiversBusy ∧
    (uploadInit stBusy ⟨"A", "x", 48, 3⟩ "f" 100).storage.getUploadState "f" =
      some (initialUpload "f" ⟨"A", "x", 48, 3⟩ 100) :=
  have hmain := uploadInit_all_receivers_busy stBusy ⟨"A", "x", 48, 3⟩ "f" 100
    (mkSession "A" "sA" (some "S") []) "S" (mkShare "S" ["A", "B"])
    (by decide) (by decide) (by decide) (by decide) (by decide) (by decide)
    (by decide) (by decide)
  ⟨hmain.1, hmain.2.1⟩

/-! ## Claim C10 -/

/-- C10: the embedded backend's `checkRateLimit` is a stub that always allows
(`allowed: true`, full remaining budget), so a heartbeat can never produce a
`rate-limited` event on the embedded backend, no matter how many requests
preceded it (no counter is even kept). This is the behaviour the spec flags
as a deficiency: the fixed window is enforced only by the Redis backend. -/
theorem checkRateLimitMemory_always_allows (maxRequests now : Nat) (st : Storage)
    (c : String) (r : Nat) :
    (checkRateLimitMemory maxRequests now).allowed = true ∧
    checkRateLimitMemory maxRequests now = ⟨true, maxRequests, now + 60000⟩ ∧
    Emit.rateLimited r ∉ (heartbeatEmbedded st c now).2 := by
  refine ⟨rfl, rfl, ?_⟩
  cases h : st.getClientSession c <;>
    simp [heartbeatEmbedded, checkRateLimitMemory, h]

/-! ## Share controller lemmas -/

theorem getShareSession_setClientSession (st : Storage) (c : String) (sess : ClientSession)
    (s : String) : (st.setClientSession c sess).getShareSession s = st.getShareSession s :=
  rfl

theorem getShareSession_setShareSession_self (st : Storage) (s : String) (sh : ShareSession) :
    (st.setShareSession s sh).getShareSession s = some sh :=
  lookupA_setA_self st.shareSessions s sh

theorem getShareSession_setShareSession_ne (st : Storage) (s s' : String) (sh : ShareSession)
    (h : s' ≠ s) : (st.setShareSession s sh).getShareSession s' = st.getShareSession s' :=
  lookupA_setA_ne st.shareSessions s s' sh h

theorem getShareSession_deleteShareSession_self (st : Storage) (s : String) :
    (st.deleteShareSession s).getShareSession s = none :=
  lookupA_removeA_self st.shareSessions s

theorem getShareSession_deleteShareSession_ne (st : Storage) (s s' : String) (h : s' ≠ s) :
    (st.deleteShareSession s).getShareSession s' = st.getShareSession s' :=
  lookupA_removeA_ne st.shareSessions s s' h

theorem getShareSession_assignClientShare (st : Storage) (c sid s : String) :
    (assignClientShare st c sid).getShareSession s = st.getShareSession s := by
  unfold assignClientShare
  cases h : st.getClientSession c with
  | none => rfl
  | some cs => exact getShareSession_setClientSession st c _ s

theorem joinShare_eq_missing (st : Storage) (shareId clientId : String) (now : Nat)
    (h : st.getShareSession shareId = none) :
    joinShare st shareId clientId now = ⟨st, [], .error ErrorFactory.notFound⟩ := by
  unfold joinShare
  rw [h]

theorem joinShare_eq_full (st : Storage) (shareId clientId : String) (now : Nat)
    (sh : ShareSession) (h : st.getShareSession shareId = some sh)
    (hact : sh.status ≠ .inactive) (hfull : sh.clients.length ≥ 2) :
    joinShare st shareId clientId now = ⟨st, [], .error ErrorFactory.shareSessionFull⟩ := by
  unfold joinShare
  rw [h]
  dsimp only
  rw [if_neg hact, if_pos hfull]

/-- Storage effect of `createShare` on share lookups: there is a single key
(the id that would be created) such that all other lookups are untouched and
that key either is untouched (duplicate-id rejection) or now holds the fresh
one-client share. -/
theorem createShare_shares_characterize (st : Storage) (c : String)
    (custom : Option String) (genId : String) (now : Nat) :
    ∃ key,
      (∀ s, s ≠ key →
        (createShare st c custom genId now).storage.getShareSession s =
          st.getShareSession s) ∧
      ((createShare st c custom genId now).storage.getShareSession key =
          st.getShareSession key ∨
        (createShare st c custom genId now).storage.getShareSession key =
          some ⟨key, now, now, [c], .active⟩) := by
  unfold createShare
  cases custom with
  | none =>
    dsimp only
    refine ⟨genId, ?_, ?_⟩
    · intro s hs
      rw [getShareSession_assignClientShare,
        getShareSession_setShareSession_ne st genId s _ hs]
    · right
      rw [getShareSession_assignClientShare]
      exact getShareSession_setShareSession_self st genId _
  | some x =>
    dsimp only
    cases hex : st.getShareSession x with
    | some sh =>
      exact ⟨x, fun s _ => rfl, Or.inl rfl⟩
    | none =>
      dsimp only
      refine ⟨x, ?_, ?_⟩
      · intro s hs
        rw [getShareSession_assignClientShare,
          getShareSession_setShareSession_ne st x s _ hs]
      · right
        rw [getShareSession_assignClientShare]
        exact getShareSession_setShareSession_self st x _

/-- Storage effect of `joinShare` on share lookups: only the joined key can
change, and it changes exactly by appending the joining client when the share
was found, active, and below capacity. -/
theorem joinShare_shares_characterize (st : Storage) (shareId clientId : String)
    (now : Nat) :
    (∀ s, s ≠ shareId →
      (joinShare st shareId clientId now).storage.getShareSession s =
        st.getShareSession s) ∧
    ((joinShare st shareId clientId now).storage.getShareSession shareId =
        st.getShareSession shareId ∨
      ∃ sh, st.getShareSession shareId = some sh ∧ sh.clients.length < 2 ∧
        (joinShare st shareId clientId now).storage.getShareSession shareId =
          some { sh with clients := sh.clients ++ [clientId], lastActivity := now }) := by
  unfold joinShare
  cases hcase : st.getShareSession shareId with
  | none => exact ⟨fun s _ => rfl, Or.inl hcase⟩
  | some sh =>
    dsimp only
    by_cases hin : sh.status = .inactive
    · rw [if_pos hin]
      exact ⟨fun s _ => rfl, Or.inl hcase⟩
    · rw [if_neg hin]
      by_cases hfull : sh.clients.length ≥ 2
      · rw [if_pos hfull]
        exact ⟨fun s _ => rfl, Or.inl hcase⟩
      · rw [if_neg hfull]
        dsimp only
        constructor
        · intro s hs
          rw [getShareSession_assignClientShare,
            getShareSession_setShareSession_ne st shareId s _ hs]
        · right
          refine ⟨sh, rfl, by omega, ?_⟩
          rw [getShareSession_assignClientShare]
          exact getShareSession_setShareSession_self st shareId _

/-- Handler `handleDisconnect` only ever shrinks (or deletes) a share's client list. -/
theorem handleDisconnect_shares_sublist (st : Storage) (sock s : String)
    (sh' : ShareSession)
    (h : (handleDisconnect st sock).1.getShareSession s = some sh') :
    ∃ sh, st.getShareSession s = some sh ∧ sh'.clients.Sublist sh.clients := by
  unfold handleDisconnect at h
  cases hfind : findBySocket st.clientSessions sock with
  | none =>
    rw [hfind] at h
    exact ⟨sh', h, List.Sublist.refl _⟩
  | some p =>
    obtain ⟨cid, sess⟩ := p
    rw [hfind] at h
    dsimp only at h
    cases hsid : sess.shareId with
    | none =>
      rw [hsid] at h
      dsimp only at h
      rw [getShareSession_setClientSession] at h
      exact ⟨sh', h, List.Sublist.refl _⟩
    | some sid =>
      rw [hsid] at h
      dsimp only at h
      cases hsh : st.getShareSession sid with
      | none =>
        rw [hsh] at h
        dsimp only at h
        rw [getShareSession_setClientSession] at h
        exact ⟨sh', h, List.Sublist.refl _⟩
      | some share =>
        rw [hsh] at h
        dsimp only at h
        by_cases hrem : (share.clients.filter (· ≠ cid)).length = 0
        · rw [if_pos hrem] at h
          dsimp only at h
          rw [getShareSession_setClientSession] at h
          by_cases hss : s = sid
          · subst hss
            rw [getShareSession_deleteShareSession_self] at h
            cases h
          · rw [getShareSession_deleteShareSession_ne st sid s hss] at h
            exact ⟨sh', h, List.Sublist.refl _⟩
        · rw [if_neg hrem] at h
          dsimp only at h
          rw [getShareSession_setClientSession] at h
          by_cases hss : s = sid
          · subst hss
            rw [getShareSession_setShareSession_self] at h
            cases h
            exact ⟨share, hsh, List.filter_sublist _⟩
          · rw [getShareSession_setShareSession_ne st sid s _ hss] at h
            exact ⟨sh', h, List.Sublist.refl _⟩

/-! ## Claim C8 -/

/-- C8: joining an active share that already has two participants fails with
`SHARE_SESSION_FULL` (HTTP 409) and leaves the storage — in particular the
share's client list — untouched; joining a missing share fails with 404; and
the capacity invariant `|share.clients| ≤ 2` is preserved by every `joinShare`
and `createShare`. -/
theorem joinShare_full_and_capacity (st : Storage) (shareId missingId clientId : String)
    (now : Nat) (sh : ShareSession)
    (hfound : st.getShareSession shareId = some sh) (hact : sh.status = .active)
    (hfull : sh.clients.length ≥ 2)
    (hmiss : st.getShareSession missingId = none) :
    joinShare st shareId clientId now = ⟨st, [], .error ⟨.SHARE_SESSION_FULL, 409⟩⟩ ∧
    joinShare st missingId clientId now = ⟨st, [], .error ⟨.NOT_FOUND, 404⟩⟩ ∧
    (∀ st' sid c t, (∀ s sh', st'.getShareSession s = some sh' → sh'.clients.length ≤ 2) →
      ∀ s sh', (joinShare st' sid c t).storage.getShareSession s = some sh' →
        sh'.clients.length ≤ 2) ∧
    (∀ st' c custom genId t,
      (∀ s sh', st'.getShareSession s = some sh' → sh'.clients.length ≤ 2) →
      ∀ s sh', (createShare st' c custom genId t).storage.getShareSession s = some sh' →
        sh'.clients.length ≤ 2) := by
  refine ⟨?_, joinShare_eq_missing st missingId clientId now hmiss, ?_, ?_⟩
  · exact joinShare_eq_full st shareId clientId now sh hfound
      (by rw [hact]; intro hcon; cases hcon) hfull
  · intro st' sid c t hcap s sh' hsh'
    obtain ⟨hothers, hself⟩ := joinShare_shares_characterize st' sid c t
    by_cases hs : s = sid
    · subst hs
      rcases hself with hsame | ⟨sh0, hsh0, hlen, hmod⟩
      · rw [hsame] at hsh'
        exact hcap s sh' hsh'
      · rw [hmod] at hsh'
        cases hsh'
        simp only [List.length_append, List.length_singleton]
        omega
    · rw [hothers s hs] at hsh'
      exact hcap s sh' hsh'
  · intro st' c custom genId t hcap s sh' hsh'
    obtain ⟨key, hothers, hself⟩ := createShare_shares_characterize st' c custom genId t
    by_cases hs : s = key
    · subst hs
      rcases hself with hsame | hnew
      · rw [hsame] at hsh'
        exact hcap s sh' hsh'
      · rw [hnew] at hsh'
        cases hsh'
        simp
    · rw [hothers s hs] at hsh'
      exact hcap s sh' hsh'

/-- Witness for `joinShare_full_and_capacity`: a full share "S" and an absent
share "missing". -/
theorem joinShare_full_and_capacity_witness :
    joinShare ⟨[], [], [("S", mkShare "S" ["A", "B"])], []⟩ "S" "C" 5 =
      ⟨⟨[], [], [("S", mkShare "S" ["A", "B"])], []⟩, [],
        .error ⟨.SHARE_SESSION_FULL, 409⟩⟩ ∧
    joinShare ⟨[], [], [("S", mkShare "S" ["A", "B"])], []⟩ "missing" "C" 5 =
      ⟨⟨[], [], [("S", mkShare "S" ["A", "B"])], []⟩, [], .error ⟨.NOT_FOUND, 404⟩⟩ :=
  have hmain := joinShare_full_and_capacity ⟨[], [], [("S", mkShare "S" ["A", "B"])], []⟩
    "S" "missing" "C" 5 (mkShare "S" ["A", "B"]) (by decide) (by decide) (by decide)
    (by decide)
  ⟨hmain.1, hmain.2.1⟩

/-! ## Claim C9 -/

/-- C9, counterexample: A creates share S1, B creates share S2, then A joins
S2 — `joinShare` never checks prior membership, so A is now listed in the
clients lists of both S1 and S2. -/
theorem client_in_two_shares_cex :
    let o1 := createShare Storage.empty "A" none "S1" 0
    let o2 := createShare o1.storage "B" none "S2" 1
    let o3 := joinShare o2.storage "S2" "A" 2
    (o3.storage.getShareSession "S1").map (fun s => s.clients) = some ["A"] ∧
    (o3.storage.getShareSession "S2").map (fun s => s.clients) = some ["B", "A"] ∧
    ("S1" : String) ≠ "S2" := by
  decide

/-- C9, amended: the disjointness invariant "each clientId appears in the
clients list of at most one share" is preserved by `create-share` and
`join-share` only when the acting client is not currently listed in any
share (the code performs no such check — a client that creates one share and
joins another ends up in both, see the counterexample); `disconnect`
preserves it unconditionally, since it only shrinks or deletes client
lists. -/
theorem sharesDisjoint_guarded (st : Storage) (hP : SharesDisjoint st) :
    (∀ c custom genId now, ClientFreeOfShares st c →
      SharesDisjoint (createShare st c custom genId now).storage) ∧
    (∀ sid c now, ClientFreeOfShares st c →
      SharesDisjoint (joinShare st sid c now).storage) ∧
    (∀ sock, SharesDisjoint (handleDisconnect st sock).1) := by
  refine ⟨?_, ?_, ?_⟩
  · intro c custom genId now hFree s1 s2 sh1 sh2 hne h1 h2 x hx
    obtain ⟨key, hothers, hself⟩ := createShare_shares_characterize st c custom genId now
    by_cases hs1 : s1 = key <;> by_cases hs2 : s2 = key
    · exact absurd (hs1.trans hs2.symm) hne
    · subst hs1
      rw [hothers s2 hs2] at h2
      rcases hself with hsame | hnew
      · rw [hsame] at h1
        exact hP s1 s2 sh1 sh2 hne h1 h2 x hx
      · rw [hnew] at h1
        cases h1
        have hxc : x = c := List.mem_singleton.1 hx
        subst hxc
        exact hFree s2 sh2 h2
    · subst hs2
      rw [hothers s1 hs1] at h1
      rcases hself with hsame | hnew
      · rw [hsame] at h2
        exact hP s1 s2 sh1 sh2 hne h1 h2 x hx
      · rw [hnew] at h2
        cases h2
        intro hx2
        have hxc : x = c := List.mem_singleton.1 hx2
        subst hxc
        exact hFree s1 sh1 h1 hx
    · rw [hothers s1 hs1] at h1
      rw [hothers s2 hs2] at h2
      exact hP s1 s2 sh1 sh2 hne h1 h2 x hx
  · intro sid c now hFree s1 s2 sh1 sh2 hne h1 h2 x hx
    obtain ⟨hothers, hself⟩ := joinShare_shares_characterize st sid c now
    by_cases hs1 : s1 = sid <;> by_cases hs2 : s2 = sid
    · exact absurd (hs1.trans hs2.symm) hne
    · subst hs1
      rw [hothers s2 hs2] at h2
      rcases hself with hsame | ⟨sh0, hsh0, _, hmod⟩
      · rw [hsame] at h1
        exact hP s1 s2 sh1 sh2 hne h1 h2 x hx
      · rw [hmod] at h1
        cases h1
        rcases List.mem_append.1 hx with hxo | hxc
        · exact hP s1 s2 sh0 sh2 hne hsh0 h2 x hxo
        · have hxc' : x = c := List.mem_singleton.1 hxc
          subst hxc'
          exact hFree s2 sh2 h2
    · subst hs2
      rw [hothers s1 hs1] at h1
      rcases hself with hsame | ⟨sh0, hsh0, _, hmod⟩
      · rw [hsame] at h2
        exact hP s1 s2 sh1 sh2 hne h1 h2 x hx
      · rw [hmod] at h2
        cases h2
        intro hx2
        rcases List.mem_append.1 hx2 with hxo | hxc
        · exact hP s1 s2 sh1 sh0 hne h1 hsh0 x hx hxo
        · have hxc' : x = c := List.mem_singleton.1 hxc
          subst hxc'
          exact hFree s1 sh1 h1 hx
    · rw [hothers s1 hs1] at h1
      rw [hothers s2 hs2] at h2
      exact hP s1 s2 sh1 sh2 hne h1 h2 x hx
  · intro sock s1 s2 sh1 sh2 hne h1 h2 x hx
    obtain ⟨sh1o, h1o, hsub1⟩ := handleDisconnect_shares_sublist st sock s1 sh1 h1
    obtain ⟨sh2o, h2o, hsub2⟩ := handleDisconnect_shares_sublist st sock s2 sh2 h2
    intro hx2
    exact hP s1 s2 sh1o sh2o hne h1o h2o x (hsub1.subset hx) (hsub2.subset hx2)

/-- Witness for `sharesDisjoint_guarded`: starting from the empty store,
one creation step preserves disjointness. -/
theorem sharesDisjoint_guarded_witness :
    SharesDisjoint (createShare Storage.empty "A" none "S1" 0).storage := by
  have hP : SharesDisjoint Storage.empty := by
    intro s1 s2 sh1 sh2 hne h1 h2
    cases h1
  have hFree : ClientFreeOfShares Storage.empty "A" := by
    intro s sh hsh
    cases hsh
  exact (sharesDisjoint_guarded Storage.empty hP).1 "A" none "S1" 0 hFree

end PeerLink
